import Mathlib

/-!
Shallow embedding of the conditional query filter engine of
`DataToolkit/Searcher.py` (class `Searcher` and its subclasses), together with
proofs about the specification claims.

Modelling conventions:
* Python strings are Lean `String`s; character-level scanning works on
  `List Char`.
* Python floats (numpy `float64`) are modelled as rationals `ℚ`; the claims
  under study only involve values where float rounding plays no role.
* `astropy` quantities are modelled as a rational magnitude tagged with a unit
  (`Value.quant`); unit conversion multiplies by the ratio of arcsecond
  factors, which matches `Quantity.to` for the angle units the code uses.
* Exceptions are modelled with `Except Err`; each Python exception kind that
  the engine can raise or catch is one constructor of `Err`.
* `eval` on the substituted condition strings is modelled by `pyEval`, a
  token-level evaluator of the `True`/`False`/`&`/`|`/parenthesis sublanguage
  that the substitution step produces (Python's `&`/`|` on booleans with `&`
  binding tighter).  `eval` compiles the whole string before running it, so an
  `=` anywhere in the text (an assignment in expression context) is a
  compile-time `SyntaxError`, checked first; any other leftover condition text
  starts with an identifier character and raises `NameError` at run time.
* The recursion of `Searcher.checkCondition` on sub-condition strings is given
  an explicit fuel argument (the Python call stack); fuel exhaustion is the
  error `Err.recursionError`.
-/

namespace DataToolkit

/-- Exception kinds raised by the engine (Python exception classes). -/
inductive Err where
  | typeError
  | valueError
  | keyError
  | indexError
  | inputError
  | nameError
  | syntaxError
  | attributeError
  | recursionError
  deriving DecidableEq, Repr

/-- Angle units used by `Searcher.applyUnit` (`u.hourangle`, `u.deg`, ...). -/
inductive UnitName where
  | hourangle
  | deg
  | arcmin
  | arcsec
  | mas
  deriving DecidableEq, Repr

/-- Conversion factor of a unit to arcseconds (how `Quantity.to` rescales). -/
def UnitName.toArcsec : UnitName → ℚ
  | .hourangle => 54000
  | .deg => 3600
  | .arcmin => 60
  | .arcsec => 1
  | .mas => 1 / 1000

/-- A scalar value held by a table cell or coerced from a condition literal:
a plain number (numpy float), a string (numpy str), or a unit-tagged quantity
(astropy `Quantity`/`Angle`). -/
inductive Value where
  | num (q : ℚ)
  | str (s : String)
  | quant (q : ℚ) (u : UnitName)
  deriving DecidableEq, Repr

/-- The operand of `Searcher.applyOperator`: Python passes either a scalar or
a list there (`between`-style operators receive lists). -/
inductive Operand where
  | single (v : Value)
  | list (l : List Value)
  deriving DecidableEq, Repr

/-- Column native dtype (`table[column].dtype.type` collapses to numeric
vs. string for the engine's purposes). -/
inductive Dtype where
  | dnum
  | dstr
  deriving DecidableEq, Repr

/-- Column metadata: name, optional physical unit, native dtype. -/
structure ColumnMeta where
  name : String
  unit : Option UnitName
  dtype : Dtype
  deriving DecidableEq, Repr

/-- A query result table: column metadata plus rows of cells (row-major,
cells aligned with `cols`). -/
structure Table where
  cols : List ColumnMeta
  rows : List (List Value)
  deriving DecidableEq, Repr

/-- The search context used by the derived `ANGULAR_SEPARATION` field:
the searcher's coordinates (abstracted to the separation function, in
arcseconds, of a row's decimal RA/DEC) and the decimal coordinate keys. -/
structure SearchCtx where
  sepArcsec : ℚ → ℚ → ℚ
  raKey : String
  decKey : String

/-- String from a character list. -/
def ofChars (l : List Char) : String := String.mk l

/-- Python `s.split(sep)` for a one-character separator (the only kind the
engine uses): runs between separators, keeping empty runs. -/
def splitCh (sep : Char) : List Char → List (List Char)
  | [] => [[]]
  | c :: rest =>
    match splitCh sep rest with
    | [] => [[c]]
    | g :: gs => if c = sep then [] :: g :: gs else (c :: g) :: gs

/-- `splitCh` lifted to strings. -/
def pySplit (s : String) (sep : Char) : List String :=
  (splitCh sep s.toList).map ofChars

/-- Python `.lower()` (ASCII lowering suffices for the engine's inputs). -/
def toLowerStr (s : String) : String := ofChars (s.toList.map Char.toLower)

/-- Python `str.strip()` as `float` applies it: drop surrounding
whitespace. -/
def trimChars (l : List Char) : List Char :=
  ((l.dropWhile Char.isWhitespace).reverse.dropWhile Char.isWhitespace).reverse

/-- Digits of a decimal string as a natural number; `none` on a non-digit. -/
def digitsToNat : List Char → Option Nat
  | [] => some 0
  | c :: cs =>
    if c.isDigit then
      (digitsToNat cs).map (fun n => n * 10 + (c.toNat - 48) * 10 ^ cs.length)
    else none

/-- Numerator and denominator of an unsigned decimal literal. -/
def parseUnsigned (l : List Char) : Option (Nat × Nat) :=
  match splitCh '.' l with
  | [a] => (digitsToNat a).map (fun n => (n, 1))
  | [a, b] =>
    if a.isEmpty ∧ b.isEmpty then none
    else
      match digitsToNat a, digitsToNat b with
      | some ia, some ib => some (ia * 10 ^ b.length + ib, 10 ^ b.length)
      | _, _ => none
  | _ => none

/-- Model of Python `float(s)` parsing (sign, digits, optional decimal
point, surrounding whitespace); exponents are not needed by the engine's
callers and are not modelled. -/
def parseNum (s : String) : Option ℚ :=
  match trimChars s.toList with
  | [] => none
  | '-' :: u => (parseUnsigned u).bind (fun nd =>
      if u.isEmpty then none else some (mkRat (-(nd.1 : ℤ)) nd.2))
  | '+' :: u => (parseUnsigned u).bind (fun nd =>
      if u.isEmpty then none else some (mkRat (nd.1 : ℤ) nd.2))
  | u => (parseUnsigned u).map (fun nd => mkRat (nd.1 : ℤ) nd.2)

/-- `Searcher.applyUnit` on a single value: convert a quantity, tag a plain
number, or parse a string literal; a parse failure is the `InputError` the
source raises on `ValueError`. -/
def applyUnitV (v : Value) (u : UnitName) : Except Err Value :=
  match v with
  | .quant q u0 => .ok (.quant (q * u0.toArcsec / u.toArcsec) u)
  | .num q => .ok (.quant q u)
  | .str s =>
    match parseNum s with
    | some q => .ok (.quant q u)
    | none => .error .inputError

/-- `column_type(value)`: numpy dtype cast of a cell or literal.  A numeric
cast of a non-numeric string raises `ValueError`; quantities never reach a
dtype cast in the source (unit-bearing columns take the `applyUnit` path). -/
def dtypeCast (d : Dtype) (v : Value) : Except Err Value :=
  match d, v with
  | .dnum, .num q => .ok (.num q)
  | .dnum, .str s =>
    match parseNum s with
    | some q => .ok (.num q)
    | none => .error .valueError
  | .dnum, .quant _ _ => .error .typeError
  | .dstr, .str s => .ok (.str s)
  | .dstr, .num q => .ok (.str (toString q))
  | .dstr, .quant _ _ => .error .typeError

/-- Python `<` on the engine's scalar values: numbers and same-kind strings
compare; quantities convert; mixed kinds raise `TypeError`. -/
def vlt : Value → Value → Except Err Bool
  | .num a, .num b => .ok (decide (a < b))
  | .str a, .str b => .ok (decide (a < b))
  | .quant a ua, .quant b ub => .ok (decide (a * ua.toArcsec < b * ub.toArcsec))
  | _, _ => .error .typeError

/-- Python `<=`, same domain as `vlt`. -/
def vle : Value → Value → Except Err Bool
  | .num a, .num b => .ok (decide (a ≤ b))
  | .str a, .str b => .ok (decide (a ≤ b))
  | .quant a ua, .quant b ub => .ok (decide (a * ua.toArcsec ≤ b * ub.toArcsec))
  | _, _ => .error .typeError

/-- Python `==` on scalar values: comparable kinds compare, mixed kinds are
unequal (Python returns `False` rather than raising). -/
def veq : Value → Value → Bool
  | .num a, .num b => decide (a = b)
  | .str a, .str b => decide (a = b)
  | .quant a ua, .quant b ub => decide (a * ua.toArcsec = b * ub.toArcsec)
  | _, _ => false

/-- Python `min(a, b)` (first argument on ties). -/
def vmin (a b : Value) : Except Err Value := do
  let blta ← vlt b a
  pure (if blta then b else a)

/-- Python `max(a, b)` (first argument on ties). -/
def vmax (a b : Value) : Except Err Value := do
  let altb ← vlt a b
  pure (if altb then b else a)

/-- Substring containment of `p` in `s` (Python `p in s` on strings). -/
def strContains (s p : List Char) : Bool :=
  match s with
  | [] => p.isEmpty
  | _ :: rest => p.isPrefixOf s || strContains rest p

/-- Python `value.lower() in column_value.lower()` needs both operands to be
strings; `.lower()` on anything else raises `AttributeError`. -/
def likeTest (column_value : Value) (value : Value) : Except Err Bool :=
  match column_value, value with
  | .str c, .str v => .ok (strContains (toLowerStr c).toList (toLowerStr v).toList)
  | _, _ => .error .attributeError

/-- Python `value in column_value` for the `in`/`!in` operators: substring
test on strings; a non-iterable column value raises `TypeError`. -/
def inTest (column_value : Value) (value : Value) : Except Err Bool :=
  match column_value, value with
  | .str c, .str v => .ok (strContains c.toList v.toList)
  | .str _, _ => .error .typeError
  | _, _ => .error .typeError

/-- Scalar view of an operand: comparisons between a scalar and a Python
list raise `TypeError`; equality with a list is `False`. -/
def Operand.scalar : Operand → Except Err Value
  | .single v => .ok v
  | .list _ => .error .typeError

/-- Python `>`, same domain as `vlt`. -/
def vgt : Value → Value → Except Err Bool
  | .num a, .num b => .ok (decide (b < a))
  | .str a, .str b => .ok (decide (b < a))
  | .quant a ua, .quant b ub => .ok (decide (b * ub.toArcsec < a * ua.toArcsec))
  | _, _ => .error .typeError

/-- Python `>=`, same domain as `vlt`. -/
def vge : Value → Value → Except Err Bool
  | .num a, .num b => .ok (decide (b ≤ a))
  | .str a, .str b => .ok (decide (b ≤ a))
  | .quant a ua, .quant b ub => .ok (decide (b * ub.toArcsec ≤ a * ua.toArcsec))
  | _, _ => .error .typeError

/-- Python subtraction of comparable scalar values. -/
def vsub : Value → Value → Except Err Value
  | .num a, .num b => .ok (.num (a - b))
  | .quant a ua, .quant b ub => .ok (.quant (a - b * ub.toArcsec / ua.toArcsec) ua)
  | _, _ => .error .typeError

/-- Python `abs` of a scalar value. -/
def vabs : Value → Value
  | .num a => .num |a|
  | .quant a ua => .quant |a| ua
  | .str s => .str s

/-- `Searcher.applyOperator(operator, column_value, value)`: the operator
evaluator, branch for branch from the source (lines 744-813). -/
def applyOperator (operator : String) (column_value : Value) (value : Operand) :
    Except Err Bool :=
  if operator = "<" then do vlt column_value (← value.scalar)
  else if operator = ">" then do vgt column_value (← value.scalar)
  else if operator = "<=" then do vle column_value (← value.scalar)
  else if operator = ">=" then do vge column_value (← value.scalar)
  else if operator = "=" then
    match value with
    | .single v => .ok (veq column_value v)
    | .list _ => .ok false
  else if operator = "==" then
    match value with
    | .single v => .ok (veq column_value v)
    | .list _ => .ok false
  else if operator = "!=" then
    match value with
    | .single v => .ok (!veq column_value v)
    | .list _ => .ok true
  else if strContains operator.toList "~=".toList then do
    match pySplit operator ',' with
    | _ :: threshold_value :: _ =>
      match column_value with
      | .quant _ cu => do
        let threshold ← applyUnitV (.str threshold_value) cu
        let v ← value.scalar
        let d ← vsub column_value v
        vle (vabs d) threshold
      | _ => .error .attributeError
    | _ => .error .indexError
  else if operator = "between" then
    match value with
    | .single _ => .error .valueError
    | .list l =>
      match l with
      | [v0, v1] => do
        let value_min ← vmin v0 v1
        let value_max ← vmax v0 v1
        let b1 ← vge column_value value_min
        if b1 then vle column_value value_max
        else pure false
      | _ => .error .valueError
  else if operator = "!between" then
    match value with
    | .single _ => .error .valueError
    | .list l =>
      match l with
      | [v0, v1] => do
        let b1 ← vge column_value v0
        if b1 then do
          let b2 ← vle column_value v1
          pure (!b2)
        else pure true
      | _ => .error .valueError
  else if operator = "like" then do likeTest column_value (← value.scalar)
  else if operator = "!like" then do
    let b ← likeTest column_value (← value.scalar)
    pure (!b)
  else if operator = "!in" then do
    let b ← inTest column_value (← value.scalar)
    pure (!b)
  else if operator = "in" then do inTest column_value (← value.scalar)
  else .error .valueError

/-- Strip the first and last character (Python `s[1:-1]`). -/
def stripEnds (s : String) : String := ofChars ((s.toList.drop 1).dropLast)

/-- `Searcher.boolean_operators = ["&", "|"]` membership test used all over
the source (`any(boolean_operator in conditional_string for ...)`). -/
def containsBoolOp (s : String) : Bool :=
  strContains s.toList ['&'] || strContains s.toList ['|']

/-- One attempted match of the innermost-group regex `\(([^()]+)\)` starting
just after an opening parenthesis: a nonempty run of non-parenthesis
characters followed by `)`.  Returns the captured content and the rest of the
input after the closing parenthesis. -/
def matchInner : List Char → List Char → Option (List Char × List Char)
  | [], _ => none
  | c :: rest, acc =>
    if c = ')' then if acc.isEmpty then none else some (acc.reverse, rest)
    else if c = '(' then none
    else matchInner rest (c :: acc)

/-- Worker for `findallInner` with explicit fuel; one unit of fuel is spent
per scan position, and the scan always advances, so the wrapper's
`l.length + 1` units can never run out. -/
def findallInnerGo : Nat → List Char → List (List Char)
  | 0, _ => []
  | _, [] => []
  | Nat.succ fuel, c :: rest =>
    if c = '(' then
      match matchInner rest [] with
      | some (content, rem) => content :: findallInnerGo fuel rem
      | none => findallInnerGo fuel rest
    else findallInnerGo fuel rest

/-- `re.findall(r"\(([^()]+)\)", s)`: left-to-right non-overlapping scan for
innermost parenthesized groups, used by `Searcher.getAllSubConditions`. -/
def findallInner (l : List Char) : List (List Char) :=
  findallInnerGo (l.length + 1) l

/-- Worker for `matchDepth1`: scan with an "inside an inner group" flag.
At the outer level a `)` closes the whole match and a `(` opens an inner
group; inside an inner group a further `(` makes the attempt fail (the inner
alternative `\([^()]*\)` admits no nesting) and a `)` closes the group. -/
def matchD1Go : List Char → List Char → Bool → Option (List Char × List Char)
  | [], _, _ => none
  | c :: rest, acc, false =>
    if c = ')' then some (acc.reverse, rest)
    else matchD1Go rest (c :: acc) (c = '(')
  | c :: rest, acc, true =>
    if c = ')' then matchD1Go rest (c :: acc) false
    else if c = '(' then none
    else matchD1Go rest (c :: acc) true

/-- One attempted match of the depth-one-group regex
`\(((?:[^()]*|\([^()]*\))*)\)` starting just after an opening parenthesis:
runs of non-parenthesis characters interleaved with fully closed inner
groups `\([^()]*\)`, up to a closing parenthesis.  Mirrors the backtracking
behaviour of the Python engine on this pattern: an unclosed inner group makes
the whole attempt fail, and the engine then restarts one character further
on. -/
def matchDepth1 (l : List Char) : Option (List Char × List Char) :=
  matchD1Go l [] false

/-- Worker for `findallDepth1` with explicit fuel; as in `findallInnerGo`
the scan advances at every step, so the wrapper's fuel can never run out. -/
def findallDepth1Go : Nat → List Char → List (List Char)
  | 0, _ => []
  | _, [] => []
  | Nat.succ fuel, c :: rest =>
    if c = '(' then
      match matchDepth1 rest with
      | some (content, rem) => content :: findallDepth1Go fuel rem
      | none => findallDepth1Go fuel rest
    else findallDepth1Go fuel rest

/-- `re.findall(r"\(((?:[^()]*|\([^()]*\))*)\)", s)`: left-to-right
non-overlapping scan for first-layer groups, used by
`Searcher.getSubConditions`. -/
def findallDepth1 (l : List Char) : List (List Char) :=
  findallDepth1Go (l.length + 1) l

/-- `Searcher.getAllSubConditions` (lines 653-681): strip one enclosing
parenthesis pair if the first and last characters are parentheses, then, if a
boolean operator occurs, collect every innermost parenthesized group and wrap
it back in parentheses; otherwise return the (stripped) string re-wrapped as
the single leaf.  Indexing `s[0]` on an empty string raises `IndexError`. -/
def getAllSubConditions (conditional_string : String) : Except Err (List String) := do
  if conditional_string.toList = [] then .error .indexError
  else
    let s :=
      if conditional_string.front = '(' ∧ conditional_string.back = ')' then
        stripEnds conditional_string
      else conditional_string
    if containsBoolOp s then
      .ok ((findallInner s.toList).map (fun content => "(" ++ ofChars content ++ ")"))
    else
      .ok ["(" ++ s ++ ")"]

/-- `Searcher.getSubConditions` (lines 683-710): same shape as
`getAllSubConditions` but extracting the first-layer-deep groups. -/
def getSubConditions (conditional_string : String) : Except Err (List String) := do
  if conditional_string.toList = [] then .error .indexError
  else
    let s :=
      if conditional_string.front = '(' ∧ conditional_string.back = ')' then
        stripEnds conditional_string
      else conditional_string
    if containsBoolOp s then
      .ok ((findallDepth1 s.toList).map (fun content => "(" ++ ofChars content ++ ")"))
    else
      .ok ["(" ++ s ++ ")"]

/-- Final tokenizing step of `Searcher.safelySplitConditionalString`: split on
single spaces; with exactly three tokens return them, otherwise rebuild the
third component from tokens 3.. (`" ".join(...)`, which is empty when only
two tokens exist); accessing token 2 of fewer than two tokens raises
`IndexError`. -/
def splitFinish (l : List Char) : Except Err (String × String × String) :=
  match (splitCh ' ' l).map ofChars with
  | [a, b, c] => .ok (a, b, c)
  | a :: b :: rest => .ok (a, b, String.intercalate " " rest)
  | _ => .error .indexError

/-- `Searcher.safelySplitConditionalString` (lines 712-742): refuse strings
containing a boolean operator, strip up to two layers of enclosing
parentheses (each strip guarded by inspecting the first and last character,
which raises `IndexError` on an empty string), then tokenize. -/
def safelySplitConditionalString (conditional_string : String) :
    Except Err (String × String × String) :=
  if containsBoolOp conditional_string then .error .valueError
  else
    match conditional_string.toList with
    | [] => .error .indexError
    | c :: cs =>
      if c = '(' ∧ (c :: cs).getLast? = some ')' then
        match ((c :: cs).drop 1).dropLast with
        | [] => .error .indexError
        | d :: ds =>
          if d = '(' ∧ (d :: ds).getLast? = some ')' then
            splitFinish (((d :: ds).drop 1).dropLast)
          else splitFinish (d :: ds)
      else splitFinish (c :: cs)

/-- Worker for `pyReplace` with a nonempty pattern `ph :: pt` and explicit
fuel; the scan consumes at least one character per unit of fuel, so the
wrapper's `l.length + 1` units can never run out. -/
def replaceGo (ph : Char) (pt r : List Char) : Nat → List Char → List Char
  | 0, l => l
  | _, [] => []
  | Nat.succ fuel, c :: rest =>
    if (ph :: pt).isPrefixOf (c :: rest) then
      r ++ replaceGo ph pt r fuel (rest.drop pt.length)
    else c :: replaceGo ph pt r fuel rest

/-- Python `s.replace(pat, rep)`: replace every non-overlapping occurrence,
scanning left to right.  (The engine never calls it with an empty pattern;
sub-conditions always start with a parenthesis.) -/
def pyReplace (s pat rep : String) : String :=
  match pat.toList with
  | [] => s
  | ph :: pt => ofChars (replaceGo ph pt rep.toList (s.toList.length + 1) s.toList)

/-- Tokens of the boolean sublanguage that the substitution step produces. -/
inductive Tok where
  | lparen
  | rparen
  | amp
  | bar
  | lit (b : Bool)
  deriving DecidableEq, Repr

/-- Tokenizer for `eval`'s input after substitution: `True`, `False`, `&`,
`|` and parentheses.  Any other character means leftover condition text;
`pyEval` has already ruled out `=` (a compile-time `SyntaxError`), and the
remaining leftover begins with a column-name identifier, on which Python
`eval` raises `NameError` at run time. -/
def tokenize : List Char → Except Err (List Tok)
  | [] => .ok []
  | '(' :: r => do pure (Tok.lparen :: (← tokenize r))
  | ')' :: r => do pure (Tok.rparen :: (← tokenize r))
  | '&' :: r => do pure (Tok.amp :: (← tokenize r))
  | '|' :: r => do pure (Tok.bar :: (← tokenize r))
  | 'T' :: 'r' :: 'u' :: 'e' :: r => do pure (Tok.lit true :: (← tokenize r))
  | 'F' :: 'a' :: 'l' :: 's' :: 'e' :: r => do pure (Tok.lit false :: (← tokenize r))
  | _ => .error .nameError

/-- A partially evaluated parenthesis level: `orAcc` is the value of the
finished `|`-operands, `andAcc` the value of the `&`-chain in progress;
the level's value is `orAcc || andAcc` (Python gives `&` precedence over
`|`). -/
structure Frame where
  orAcc : Bool
  andAcc : Bool
  deriving DecidableEq, Repr

/-- One-pass evaluator of the token stream: `st` is the stack of suspended
outer levels, `f` the current level, `needOperand` whether the next token
must start an operand.  Shapes Python `eval` would reject (dangling
operators, unbalanced parentheses, adjacent operands) fail. -/
def runToks : List Tok → List Frame → Frame → Bool → Except Err Bool
  | [], [], f, false => .ok (f.orAcc || f.andAcc)
  | .lit b :: r, st, f, true => runToks r st ⟨f.orAcc, f.andAcc && b⟩ false
  | .lparen :: r, st, f, true => runToks r (f :: st) ⟨false, true⟩ true
  | .rparen :: r, g :: st, f, false =>
    runToks r st ⟨g.orAcc, g.andAcc && (f.orAcc || f.andAcc)⟩ false
  | .amp :: r, st, f, false => runToks r st f true
  | .bar :: r, st, f, false => runToks r st ⟨f.orAcc || f.andAcc, true⟩ true
  | _, _, _, _ => .error .syntaxError

/-- Whether the text contains `=`.  Python compiles the whole `eval` argument
before evaluating it, and an `=` in expression context is a compile-time
`SyntaxError`, raised before any name lookup in the string. -/
def hasEq : List Char → Bool
  | [] => false
  | c :: r => (c == '=') || hasEq r

/-- Model of `eval(modified_conditional_string)` (line 908) on the boolean
sublanguage produced by the substitution step: the compile-time `=` check
first (`SyntaxError`), then tokenization and evaluation. -/
def pyEval (s : String) : Except Err Bool :=
  cond (hasEq s.toList)
    (.error .syntaxError)
    ((tokenize s.toList).bind fun ts => runToks ts [] ⟨false, true⟩ true)

/-- Effectful map over a list in the `Except Err` monad (a Python `for` loop
that appends one result per element and lets exceptions propagate). -/
def emapM {α β : Type} (f : α → Except Err β) : List α → Except Err (List β)
  | [] => .ok []
  | a :: as => do
    let b ← f a
    let bs ← emapM f as
    .ok (b :: bs)

/-- `table[column_name]` metadata lookup; a missing column raises
`KeyError`. -/
def lookupColumn (t : Table) (column_name : String) : Except Err ColumnMeta :=
  match t.cols.find? (fun c => c.name = column_name) with
  | some c => .ok c
  | none => .error .keyError

/-- Index of a column in the row layout. -/
def colIndex (t : Table) (column_name : String) : Except Err Nat :=
  match t.cols.findIdx? (fun c => c.name = column_name) with
  | some i => .ok i
  | none => .error .keyError

/-- `list(table[column_name])`: the cells of one column, one per row. -/
def columnValues (t : Table) (column_name : String) : Except Err (List Value) := do
  let i ← colIndex t column_name
  emapM (fun row =>
    match row.get? i with
    | some v => .ok v
    | none => .error .indexError) t.rows

/-- Coerce one raw cell (or one `|`-alternative of a cell) to the column's
unit or dtype, as the per-row loop of `checkCondition` does (lines 871-876
and 883-887). -/
def coerceCell (t : Table) (column_name : String) (column_unit : Option UnitName)
    (v : Value) : Except Err Value :=
  match column_unit with
  | some un => applyUnitV v un
  | none => do
    let col ← lookupColumn t column_name
    dtypeCast col.dtype v

/-- The guarded body of the per-cell `try` block in `checkCondition`
(lines 869-888): test the cell for the multi-value delimiter (`"|" in
column_value` raises `TypeError` on a non-string cell), split and evaluate
every alternative when present (ANDing the per-alternative results for
negated operators, ORing them otherwise), otherwise coerce and evaluate the
single value. -/
def cellTry (t : Table) (column_name operator : String) (value : Operand)
    (column_unit : Option UnitName) (column_value : Value) : Except Err Bool :=
  match column_value with
  | .str s =>
    if s.toList.contains '|' then do
      let column_bool_list ← emapM (fun sub_column_value => do
          let sv ← coerceCell t column_name column_unit (.str sub_column_value)
          applyOperator operator sv value) (pySplit s '|')
      if operator.toList.contains '!' then .ok (column_bool_list.all id)
      else .ok (column_bool_list.any id)
    else do
      let cv ← coerceCell t column_name column_unit column_value
      applyOperator operator cv value
  | _ => .error .typeError

/-- The `except TypeError` fallback of the per-cell loop (lines 889-895):
coerce the raw cell once and evaluate the operator directly. -/
def cellFallback (t : Table) (column_name operator : String) (value : Operand)
    (column_unit : Option UnitName) (column_value : Value) : Except Err Bool := do
  let cv ← coerceCell t column_name column_unit column_value
  applyOperator operator cv value

/-- One iteration of the per-cell loop of `checkCondition` (lines 867-895):
run the `try` block and recover from a `TypeError` via the fallback. -/
def evalCell (t : Table) (column_name operator : String) (value : Operand)
    (column_unit : Option UnitName) (column_value : Value) : Except Err Bool :=
  match cellTry t column_name operator value column_unit column_value with
  | .error .typeError => cellFallback t column_name operator value column_unit column_value
  | r => r

/-- The raw column of cell values a leaf condition is evaluated against
(lines 859-866): the stored column, or, for the derived
`ANGULAR_SEPARATION` field, the separation (in arcseconds) of each row's
decimal coordinates from the search coordinates. -/
def leafColumnValues (ctx : SearchCtx) (t : Table) (column_name : String) :
    Except Err (List Value) :=
  if column_name = "ANGULAR_SEPARATION" then do
    let ras ← columnValues t ctx.raKey
    let decs ← columnValues t ctx.decKey
    emapM (fun rd =>
        match rd with
        | (.num ra, .num dec) => .ok (.quant (ctx.sepArcsec ra dec) .arcsec)
        | _ => .error .typeError) (ras.zip decs)
  else columnValues t column_name

/-- Column unit resolution of the leaf branch (lines 845-848):
`ANGULAR_SEPARATION` is fixed to arcseconds, otherwise the stored column's
unit is read (raising `KeyError` on a missing column). -/
def leafUnit (t : Table) (column_name : String) : Except Err (Option UnitName) :=
  if column_name = "ANGULAR_SEPARATION" then .ok (some .arcsec)
  else do
    let col ← lookupColumn t column_name
    .ok col.unit

/-- Literal coercion of the leaf branch (lines 850-857): with a unit, a
bracketed literal is split on commas into a list and each part converted;
without a unit the raw literal is cast to the column dtype (note the
bracket handling only exists on the unit path, as in the source). -/
def leafValue (t : Table) (column_name : String) (column_unit : Option UnitName)
    (value0 : String) : Except Err Operand :=
  match column_unit with
  | some un =>
    if value0.toList.contains '[' ∧ value0.toList.contains ']' then do
      let items := pySplit (stripEnds value0) ','
      let vals ← emapM (fun it => applyUnitV (.str it) un) items
      .ok (Operand.list vals)
    else do
      let v ← applyUnitV (.str value0) un
      .ok (Operand.single v)
  | none => do
    let col ← lookupColumn t column_name
    let v ← dtypeCast col.dtype (.str value0)
    .ok (Operand.single v)

/-- The leaf branch of `checkCondition` (lines 836-897): parse the leaf,
look up the column unit, coerce the literal, gather the column's cells and
evaluate each one. -/
def evalLeaf (ctx : SearchCtx) (t : Table) (sub_condition : String) :
    Except Err (List Bool) := do
  let split_conditional_string ← safelySplitConditionalString sub_condition
  let column_name := split_conditional_string.1
  let operator := split_conditional_string.2.1
  let value0 := split_conditional_string.2.2
  let column_unit ← leafUnit t column_name
  let value ← leafValue t column_name column_unit value0
  let column_values ← leafColumnValues ctx t column_name
  emapM (evalCell t column_name operator value column_unit) column_values

/-- Build the substituted condition string for one row (lines 904-907):
replace each sub-condition's text by the `True`/`False` literal of its
boolean list at this row index (`sub_condition_boolean_list[table_index]`
raises `IndexError` when a sub-result is too short). -/
def buildModified (pairs : List (String × List Bool)) (table_index : Nat)
    (s : String) : Except Err String :=
  match pairs with
  | [] => .ok s
  | (sub, lst) :: rest =>
    match lst.get? table_index with
    | none => .error .indexError
    | some b =>
      buildModified rest table_index (pyReplace s sub (if b then "True" else "False"))

/-- One row of the fold-back phase: build the substituted string for row
`table_index` and evaluate it (line 908). -/
def substRow (s : String) (subs : List String) (lists : List (List Bool))
    (table_index : Nat) : Except Err Bool := do
  pyEval (← buildModified (subs.zip lists) table_index s)

/-- The fold-back phase of `checkCondition` (lines 901-909): when at least
one sub-condition list exists, evaluate the substituted string once per row
index of the first list; with no sub-conditions the boolean list stays
empty. -/
def finalPhase (s : String) (subs : List String) (lists : List (List Bool)) :
    Except Err (List Bool) :=
  match lists with
  | [] => .ok []
  | first :: _ => emapM (substRow s subs lists) (List.range first.length)

/-- `Searcher.checkCondition(table, conditional_string)` (lines 815-909):
decompose into first-layer sub-conditions, evaluate each (leaf directly,
compound recursively), then fold the per-row booleans back through textual
substitution and `eval`.  `fuel` bounds the Python recursion depth. -/
def checkCondition (ctx : SearchCtx) : Nat → Table → String → Except Err (List Bool)
  | 0, _, _ => .error .recursionError
  | Nat.succ fuel, table, conditional_string => do
    let sub_conditions ← getSubConditions conditional_string
    let sub_condition_boolean_lists ← emapM (fun sub_condition => do
        let sub_sub_conditions ← getSubConditions sub_condition
        if sub_sub_conditions.length = 1 then evalLeaf ctx table sub_condition
        else checkCondition ctx fuel table sub_condition) sub_conditions
    finalPhase conditional_string sub_conditions sub_condition_boolean_lists

/-- Keep the elements whose mask entry is `true` (`table[boolean_list]`;
an empty index list selects nothing). -/
def selectMask {α : Type} : List α → List Bool → List α
  | [], _ => []
  | _, [] => []
  | a :: as, b :: bs => if b then a :: selectMask as bs else selectMask as bs

/-- Filtering a table by a row mask. -/
def filterTable (t : Table) (mask : List Bool) : Table :=
  { t with rows := selectMask t.rows mask }

/-- The conjunctive condition loop of `Searcher.applyQueryCriteria`
(lines 141-148): short-circuit to the current table the moment it becomes
empty, otherwise filter by each condition in turn. -/
def applyCriteriaLoop (ctx : SearchCtx) (fuel : Nat) :
    Table → List String → Except Err Table
  | t, [] => .ok t
  | t, condition :: rest =>
    if t.rows.length = 0 then .ok t
    else do
      let boolean_list ← checkCondition ctx fuel t condition
      applyCriteriaLoop ctx fuel (filterTable t boolean_list) rest

/-- `Searcher.applyQueryCriteria(conditions)` (lines 114-151), modelled
statelessly over the current result table: `None` or an empty result table
is returned as is, `None` conditions mean "no filtering", and a single
condition string is the singleton list (the `isinstance(str)` wrap). -/
def applyQueryCriteria (ctx : SearchCtx) (fuel : Nat) (result_table : Option Table)
    (conditions : Option (List String)) : Except Err (Option Table) :=
  match result_table with
  | none => .ok none
  | some t =>
    if t.rows.length = 0 then .ok (some t)
    else
      match conditions with
      | none => .ok (some t)
      | some conds => do
        let t2 ← applyCriteriaLoop ctx fuel t conds
        .ok (some t2)

/-- A scalar value handed to the predicate builder: a Python int, string or
quantity (the builder's `values` are these scalars, or one flat list of them
for the `between` range). -/
inductive BuildScalar where
  | int (n : ℤ)
  | str (s : String)
  | quant (q : ℚ) (u : UnitName)
  deriving DecidableEq, Repr

/-- Name of a unit as astropy prints it. -/
def UnitName.render : UnitName → String
  | .hourangle => "hourangle"
  | .deg => "deg"
  | .arcmin => "arcmin"
  | .arcsec => "arcsec"
  | .mas => "mas"

/-- Integral-or-fraction rendering of a rational (the claims only format
integers, which Python renders without a decimal point). -/
def ratRender (q : ℚ) : String :=
  if q.den = 1 then toString q.num else toString q.num ++ "/" ++ toString q.den

/-- Python `f"{value}"` for one scalar builder value. -/
def renderScalar : BuildScalar → String
  | .int n => toString n
  | .str s => s
  | .quant q u => ratRender q ++ " " ++ u.render

/-- Python `f"{values[i]}"` when `values[i]` is a list: `repr` of each
element inside brackets (strings and stringified quantities keep their
quotes here; the builder strips all apostrophes afterwards). -/
def renderScalarList (l : List BuildScalar) : String :=
  "[" ++ String.intercalate ", " (l.map renderListElem) ++ "]"
where
  /-- `repr` of a list element. -/
  renderListElem : BuildScalar → String
  | .int n => toString n
  | .str s => "'" ++ s ++ "'"
  | .quant q u => "'" ++ ratRender q ++ " " ++ u.render ++ "'"

/-- `Searcher.buildConditionalArgument(column_name, operator, values,
boolean_operator="|")` (lines 911-947): `between` keeps `values` as the one
two-element range; otherwise one parenthesized leaf is emitted per value
(apostrophes stripped), and the leaves are joined by the boolean operator
inside one more enclosing parenthesis pair. -/
def buildConditionalArgument (column_name operator : String)
    (values : List BuildScalar) (boolean_operator : String := "|") : String :=
  let rendered : List String :=
    if operator ∈ ["between"] then [renderScalarList values]
    else values.map renderScalar
  let conditional_args := rendered.map (fun vs =>
    "(" ++ pyReplace (column_name ++ " " ++ operator ++ " " ++ vs) "'" "" ++ ")")
  match conditional_args with
  | [single_arg] => "(" ++ single_arg ++ ")"
  | args => "(" ++ String.intercalate boolean_operator args ++ ")"

/-- `Searcher.combineConditionalArguments(*conditional_args,
boolean_operator="|")` (lines 949-973). -/
def combineConditionalArguments (conditional_args : List String)
    (boolean_operator : String := "|") : Except Err String :=
  if ¬ (boolean_operator = "&" ∨ boolean_operator = "|") then .error .valueError
  else
    match conditional_args with
    | [single_arg] => .ok single_arg
    | args => .ok ("(" ++ String.intercalate boolean_operator args ++ ")")

/-- First-occurrence deduplication, standing in for Python's
`list(set(...))` (whose iteration order is unspecified; the claims about
`getRequiredVotableFields` only concern membership). -/
def dedupGo (seen : List String) : List String → List String
  | [] => []
  | a :: as => if a ∈ seen then dedupGo seen as else a :: dedupGo (a :: seen) as

/-- First-occurrence deduplication (worker above). -/
def dedupKeepFirst (l : List String) : List String := dedupGo [] l

/-- The lower-cased default Simbad votable fields
(`SimbadSearcher.getRequiredVotableFields`, lines 1119-1122). -/
def defaultFieldsLower : List String :=
  ["main_id", "ra", "dec", "ra_prec", "dec_prec", "coo_err_maja", "coo_err_mina",
   "coo_err_angle", "coo_qual", "coo_wavelength", "coo_bibcode", "ra_d", "dec_d",
   "ids", "script_number_id", "otypes"]

/-- `SimbadSearcher.getRequiredVotableFields(conditional_strings)`
(lines 1087-1125): gather the column name of every lowest-level
sub-condition, drop the derived `ANGULAR_SEPARATION` pseudo-field,
deduplicate, then keep the lower-cased names that are not default fields. -/
def getRequiredVotableFields (conditional_strings : List String) :
    Except Err (List String) := do
  let column_names ← conditional_strings.foldlM (fun acc conditional_string => do
      let all_sub_conditions ← getAllSubConditions conditional_string
      let names ← all_sub_conditions.foldlM (fun ns sub_condition => do
          let (column_name, _, _) ← safelySplitConditionalString sub_condition
          if column_name ≠ "ANGULAR_SEPARATION" then pure (ns ++ [column_name])
          else pure ns) acc
      pure (dedupKeepFirst names)) []
  pure (column_names.foldl (fun votable_fields column_name =>
      if toLowerStr column_name ∉ votable_fields ∧
          toLowerStr column_name ∉ defaultFieldsLower then
        votable_fields ++ [toLowerStr column_name]
      else votable_fields) [])

/-! ### Structural lemmas about the evaluator

These support the row-mask invariant (C9) and idempotence (C7): the
evaluator's per-row booleans depend only on the row, so evaluating a
mask-filtered table yields the mask-filtered boolean list. -/

theorem emapM_nil {α β : Type} (f : α → Except Err β) : emapM f [] = .ok [] := rfl

theorem emapM_cons_ok {α β : Type} {f : α → Except Err β} {a : α} {l : List α}
    {out : List β} :
    emapM f (a :: l) = .ok out →
    ∃ b bs, f a = .ok b ∧ emapM f l = .ok bs ∧ out = b :: bs := by
  intro h
  simp only [emapM, Bind.bind, Except.bind] at h
  cases hfa : f a with
  | error e => rw [hfa] at h; exact absurd h (by simp)
  | ok b =>
    rw [hfa] at h
    cases hfl : emapM f l with
    | error e => rw [hfl] at h; exact absurd h (by simp)
    | ok bs =>
      rw [hfl] at h
      refine ⟨b, bs, rfl, rfl, ?_⟩
      cases h
      rfl

theorem emapM_cons_of {α β : Type} {f : α → Except Err β} {a : α} {l : List α}
    {b : β} {bs : List β} (ha : f a = .ok b) (hl : emapM f l = .ok bs) :
    emapM f (a :: l) = .ok (b :: bs) := by
  simp only [emapM, Bind.bind, Except.bind, ha, hl]

theorem emapM_length {α β : Type} {f : α → Except Err β} :
    ∀ {l : List α} {bs : List β}, emapM f l = .ok bs → bs.length = l.length := by
  intro l
  induction l with
  | nil => intro bs h; cases h; rfl
  | cons a as ih =>
    intro bs h
    obtain ⟨b, bs', _, hl, rfl⟩ := emapM_cons_ok h
    simp [ih hl]

theorem emapM_ok_mem {α β : Type} {f : α → Except Err β} :
    ∀ {l : List α} {bs : List β}, emapM f l = .ok bs →
      ∀ a ∈ l, ∃ b, f a = .ok b := by
  intro l
  induction l with
  | nil => intro bs _ a ha; cases ha
  | cons x xs ih =>
    intro bs h a ha
    obtain ⟨b, bs', hb, hl, rfl⟩ := emapM_cons_ok h
    rcases List.mem_cons.mp ha with rfl | ha
    · exact ⟨b, hb⟩
    · exact ih hl a ha

theorem emapM_congr {α β : Type} {f g : α → Except Err β} :
    ∀ {l : List α}, (∀ a ∈ l, f a = g a) → emapM f l = emapM g l := by
  intro l
  induction l with
  | nil => intro _; rfl
  | cons x xs ih =>
    intro h
    simp only [emapM, h x (List.mem_cons_self x xs),
      ih (fun a ha => h a (List.mem_cons_of_mem x ha))]

theorem emapM_map_ok {α β γ : Type} {f : α → Except Err β} {g : α → Except Err γ}
    {h : β → γ} :
    ∀ {l : List α} {bs : List β},
      (∀ a ∈ l, ∀ b, f a = .ok b → g a = .ok (h b)) →
      emapM f l = .ok bs → emapM g l = .ok (bs.map h) := by
  intro l
  induction l with
  | nil => intro bs _ hb; cases hb; rfl
  | cons x xs ih =>
    intro bs hpt hb
    obtain ⟨b, bs', hbx, hl, rfl⟩ := emapM_cons_ok hb
    exact emapM_cons_of (hpt x (List.mem_cons_self x xs) b hbx)
      (ih (fun a ha => hpt a (List.mem_cons_of_mem x ha)) hl)

theorem emapM_comp {α β γ : Type} (f : α → β) (g : β → Except Err γ) :
    ∀ l : List α, emapM g (l.map f) = emapM (fun a => g (f a)) l := by
  intro l
  induction l with
  | nil => rfl
  | cons x xs ih => simp only [List.map_cons, emapM, ih]

theorem emapM_select {α β : Type} {f : α → Except Err β} :
    ∀ {l : List α} {bs : List β} (m : List Bool),
      emapM f l = .ok bs → emapM f (selectMask l m) = .ok (selectMask bs m) := by
  intro l
  induction l with
  | nil =>
    intro bs m h
    cases h
    cases m <;> rfl
  | cons x xs ih =>
    intro bs m h
    obtain ⟨b, bs', hb, hl, rfl⟩ := emapM_cons_ok h
    cases m with
    | nil => rfl
    | cons mb ms =>
      cases mb with
      | true => simpa [selectMask] using emapM_cons_of hb (ih ms hl)
      | false => simpa [selectMask] using ih ms hl

theorem selectMask_nil_right {α : Type} (l : List α) : selectMask l [] = [] := by
  cases l <;> rfl

theorem selectMask_nil_left {α : Type} (m : List Bool) :
    selectMask ([] : List α) m = [] := by
  cases m <;> rfl

theorem selectMask_length {α : Type} :
    ∀ {l : List α} {m : List Bool}, l.length = m.length →
      (selectMask l m).length = m.count true := by
  intro l
  induction l with
  | nil =>
    intro m h
    cases m with
    | nil => rfl
    | cons _ _ => cases h
  | cons x xs ih =>
    intro m h
    cases m with
    | nil => cases h
    | cons mb ms =>
      simp only [List.length_cons, Nat.succ.injEq] at h
      cases mb with
      | true => simp [selectMask, ih h, List.count_cons]
      | false => simp [selectMask, ih h, List.count_cons]

theorem selectMask_zip {α β : Type} :
    ∀ (xs : List α) (ys : List β) (m : List Bool), xs.length = ys.length →
      selectMask (xs.zip ys) m = (selectMask xs m).zip (selectMask ys m) := by
  intro xs
  induction xs with
  | nil =>
    intro ys m h
    cases ys with
    | nil => cases m <;> rfl
    | cons _ _ => cases h
  | cons x xs ih =>
    intro ys m h
    cases ys with
    | nil => cases h
    | cons y ys =>
      simp only [List.length_cons, Nat.succ.injEq] at h
      cases m with
      | nil => rfl
      | cons mb ms =>
        cases mb with
        | true =>
          simp only [selectMask, List.zip_cons_cons, if_true]
          exact congrArg (List.cons (x, y)) (ih ys ms h)
        | false =>
          simp only [selectMask, List.zip_cons_cons, if_false]
          exact ih ys ms h

theorem selectMask_idem {α : Type} :
    ∀ (xs : List α) (m : List Bool),
      selectMask (selectMask xs m) (selectMask m m) = selectMask xs m := by
  intro xs
  induction xs with
  | nil => intro m; cases m <;> simp [selectMask]
  | cons x xs ih =>
    intro m
    cases m with
    | nil => rfl
    | cons mb ms =>
      cases mb with
      | true => simp [selectMask, ih ms]
      | false => simp [selectMask, ih ms]

theorem get?_succ {α : Type} : ∀ (l : List α) (i : Nat), l.get? (i + 1) = l.tail.get? i := by
  intro l i
  cases l <;> rfl

theorem buildModified_ok_lt :
    ∀ {pairs : List (String × List Bool)} {i : Nat} {s m : String},
      buildModified pairs i s = .ok m → ∀ p ∈ pairs, i < p.2.length := by
  intro pairs
  induction pairs with
  | nil => intro i s m _ p hp; cases hp
  | cons q rest ih =>
    intro i s m h p hp
    obtain ⟨sub, lst⟩ := q
    simp only [buildModified] at h
    cases hg : lst.get? i with
    | none => rw [hg] at h; cases h
    | some b =>
      rw [hg] at h
      rcases List.mem_cons.mp hp with rfl | hp
      · exact List.get?_eq_some.mp hg |>.1
      · exact ih h p hp

theorem buildModified_succ :
    ∀ (pairs : List (String × List Bool)) (i : Nat) (s : String),
      buildModified pairs (i + 1) s =
        buildModified (pairs.map (fun p => (p.1, p.2.tail))) i s := by
  intro pairs
  induction pairs with
  | nil => intro i s; rfl
  | cons q rest ih =>
    intro i s
    obtain ⟨sub, lst⟩ := q
    simp only [buildModified, List.map_cons, get?_succ]
    cases lst.tail.get? i with
    | none => rfl
    | some b => exact ih i _

theorem buildModified_congr :
    ∀ {pairs1 pairs2 : List (String × List Bool)} {i j : Nat},
      List.Forall₂ (fun p q => p.1 = q.1 ∧ p.2.get? i = q.2.get? j) pairs1 pairs2 →
      ∀ s : String, buildModified pairs1 i s = buildModified pairs2 j s := by
  intro pairs1 pairs2 i j h
  induction h with
  | nil => intro s; rfl
  | cons hpq hrest ih =>
    intro s
    rename_i p q l1 l2
    obtain ⟨sp, lp⟩ := p
    obtain ⟨sq, lq⟩ := q
    obtain ⟨h1, h2⟩ := hpq
    simp only at h1 h2
    simp only [buildModified, h1, h2]
    cases lq.get? j with
    | none => rfl
    | some b => exact ih _

theorem zip_map_snd {α β γ : Type} (f : β → γ) :
    ∀ (xs : List α) (ys : List β),
      (xs.zip ys).map (fun p => (p.1, f p.2)) = xs.zip (ys.map f) := by
  intro xs
  induction xs with
  | nil => intro ys; rfl
  | cons x xs ih =>
    intro ys
    cases ys with
    | nil => rfl
    | cons y ys => simp only [List.zip_cons_cons, List.map_cons, ih]

theorem substRow_succ (s : String) (subs : List String) (lists : List (List Bool))
    (i : Nat) :
    substRow s subs lists (i + 1) = substRow s subs (lists.map List.tail) i := by
  simp only [substRow, buildModified_succ, zip_map_snd]

theorem emapM_range_succ_ok {β : Type} {f : Nat → Except Err β} {n : Nat}
    {out : List β} (h : emapM f (List.range (n + 1)) = .ok out) :
    ∃ b bs, f 0 = .ok b ∧ emapM (fun i => f (i + 1)) (List.range n) = .ok bs ∧
      out = b :: bs := by
  rw [List.range_succ_eq_map] at h
  obtain ⟨b, bs, hb, hl, rfl⟩ := emapM_cons_ok h
  rw [emapM_comp] at hl
  exact ⟨b, bs, hb, hl, rfl⟩

theorem emapM_range_succ_of {β : Type} {f : Nat → Except Err β} {n : Nat}
    {b : β} {bs : List β} (h0 : f 0 = .ok b)
    (hl : emapM (fun i => f (i + 1)) (List.range n) = .ok bs) :
    emapM f (List.range (n + 1)) = .ok (b :: bs) := by
  rw [List.range_succ_eq_map]
  exact emapM_cons_of h0 (by rw [emapM_comp]; exact hl)

theorem forall2_zip_map {β : Type} (P : β → β → Prop) (f : β → β) :
    ∀ (subs : List String) (ls : List β), (∀ l ∈ ls, P (f l) l) →
      List.Forall₂ (fun p q => p.1 = q.1 ∧ P p.2 q.2)
        (subs.zip (ls.map f)) (subs.zip ls) := by
  intro subs
  induction subs with
  | nil => intro ls _; simp [List.Forall₂.nil]
  | cons su sus ih =>
    intro ls hP
    cases ls with
    | nil => simp [List.Forall₂.nil]
    | cons l ls =>
      simp only [List.map_cons, List.zip_cons_cons]
      exact List.Forall₂.cons ⟨rfl, hP l (List.mem_cons_self l ls)⟩
        (ih ls (fun x hx => hP x (List.mem_cons_of_mem l hx)))

theorem substRow_head_select (s : String) (subs : List String)
    (lists : List (List Bool)) (b : Bool) (bs : List Bool)
    (hne : ∀ l ∈ lists, l ≠ []) :
    substRow s subs (lists.map (fun l => selectMask l (true :: bs))) 0 =
      substRow s subs lists 0 := by
  simp only [substRow]
  rw [buildModified_congr
    (forall2_zip_map (fun l2 l1 => l2.get? 0 = l1.get? 0) _ subs lists ?_) s]
  intro l hl
  cases l with
  | nil => exact absurd rfl (hne [] hl)
  | cons x xs => simp [selectMask]

theorem finalPhase_select_core :
    ∀ (bs : List Bool) (s : String) (subs : List String)
      (lists : List (List Bool)) (out : List Bool),
      (∀ l ∈ lists, l.length = bs.length) →
      emapM (substRow s subs lists) (List.range bs.length) = .ok out →
      emapM (substRow s subs (lists.map (fun l => selectMask l bs)))
        (List.range (bs.count true)) = .ok (selectMask out bs) := by
  intro bs
  induction bs with
  | nil =>
    intro s subs lists out hlen h
    cases h
    rfl
  | cons b bs ih =>
    intro s subs lists out hlen h
    simp only [List.length_cons] at h
    obtain ⟨r0, rs, h0, hrest, rfl⟩ := emapM_range_succ_ok h
    have hne : ∀ l ∈ lists, l ≠ [] := by
      intro l hl hcontra
      have := hlen l hl
      rw [hcontra] at this
      simp at this
    have htails : ∀ l ∈ lists.map List.tail, l.length = bs.length := by
      intro l hl
      obtain ⟨l0, hl0, rfl⟩ := List.mem_map.mp hl
      have := hlen l0 hl0
      cases l0 with
      | nil => exact absurd rfl (hne [] hl0)
      | cons x xs => simpa using this
    rw [emapM_congr (fun i _ => substRow_succ s subs lists i)] at hrest
    have ihres := ih s subs (lists.map List.tail) rs htails hrest
    cases b with
    | true =>
      have hmapmap : (lists.map (fun l => selectMask l (true :: bs))).map List.tail =
          (lists.map List.tail).map (fun l => selectMask l bs) := by
        simp only [List.map_map]
        refine List.map_congr_left ?_
        intro l hl
        cases l with
        | nil => exact absurd rfl (hne [] hl)
        | cons x xs => simp [selectMask]
      rw [show ((true :: bs).count true) = bs.count true + 1 by simp]
      rw [show (selectMask (r0 :: rs) (true :: bs)) = r0 :: selectMask rs bs from rfl]
      refine emapM_range_succ_of ?_ ?_
      · rw [substRow_head_select s subs lists true bs hne]
        exact h0
      · rw [emapM_congr (fun i _ => substRow_succ s subs _ i), hmapmap]
        exact ihres
    | false =>
      rw [show ((false :: bs).count true) = bs.count true by simp]
      rw [show (selectMask (r0 :: rs) (false :: bs)) = selectMask rs bs from rfl]
      have hsel : lists.map (fun l => selectMask l (false :: bs)) =
          (lists.map List.tail).map (fun l => selectMask l bs) := by
        simp only [List.map_map]
        refine List.map_congr_left ?_
        intro l hl
        cases l with
        | nil => exact absurd rfl (hne [] hl)
        | cons x xs => simp [selectMask]
      rw [hsel]
      exact ihres

theorem lookupColumn_filter (t : Table) (m : List Bool) (n : String) :
    lookupColumn (filterTable t m) n = lookupColumn t n := rfl

theorem colIndex_filter (t : Table) (m : List Bool) (n : String) :
    colIndex (filterTable t m) n = colIndex t n := rfl

theorem leafUnit_filter (t : Table) (m : List Bool) (n : String) :
    leafUnit (filterTable t m) n = leafUnit t n := rfl

theorem leafValue_filter (t : Table) (m : List Bool) (n : String)
    (cu : Option UnitName) (v0 : String) :
    leafValue (filterTable t m) n cu v0 = leafValue t n cu v0 := rfl

theorem evalCell_filter (t : Table) (m : List Bool) (n op : String) (v : Operand)
    (cu : Option UnitName) (cv : Value) :
    evalCell (filterTable t m) n op v cu cv = evalCell t n op v cu cv := rfl

theorem bindOk {α β : Type} (a : α) (f : α → Except Err β) :
    (Except.ok a >>= f) = f a := rfl

theorem bindErr {α β : Type} (e : Err) (f : α → Except Err β) :
    ((Except.error e : Except Err α) >>= f) = .error e := rfl

theorem columnValues_length {t : Table} {n : String} {vs : List Value}
    (h : columnValues t n = .ok vs) : vs.length = t.rows.length := by
  unfold columnValues at h
  cases hci : colIndex t n with
  | error e => rw [hci, bindErr] at h; cases h
  | ok i =>
    rw [hci, bindOk] at h
    exact emapM_length h

theorem columnValues_select {t : Table} {n : String} {vs : List Value}
    (m : List Bool) (h : columnValues t n = .ok vs) :
    columnValues (filterTable t m) n = .ok (selectMask vs m) := by
  unfold columnValues at h ⊢
  rw [colIndex_filter]
  cases hci : colIndex t n with
  | error e => rw [hci, bindErr] at h; cases h
  | ok i =>
    rw [hci, bindOk] at h
    rw [bindOk]
    exact emapM_select m h

theorem leafColumnValues_length {ctx : SearchCtx} {t : Table} {n : String}
    {vs : List Value} (h : leafColumnValues ctx t n = .ok vs) :
    vs.length = t.rows.length := by
  unfold leafColumnValues at h
  by_cases hn : n = "ANGULAR_SEPARATION"
  · rw [if_pos hn] at h
    cases hra : columnValues t ctx.raKey with
    | error e => rw [hra, bindErr] at h; cases h
    | ok ras =>
      rw [hra, bindOk] at h
      cases hdec : columnValues t ctx.decKey with
      | error e => rw [hdec, bindErr] at h; cases h
      | ok decs =>
        rw [hdec, bindOk] at h
        have := emapM_length h
        rw [this, List.length_zip, columnValues_length hra,
          columnValues_length hdec]
        exact Nat.min_self _
  · rw [if_neg hn] at h
    exact columnValues_length h

theorem leafColumnValues_select {ctx : SearchCtx} {t : Table} {n : String}
    {vs : List Value} (m : List Bool) (h : leafColumnValues ctx t n = .ok vs) :
    leafColumnValues ctx (filterTable t m) n = .ok (selectMask vs m) := by
  unfold leafColumnValues at h ⊢
  by_cases hn : n = "ANGULAR_SEPARATION"
  · rw [if_pos hn] at h ⊢
    cases hra : columnValues t ctx.raKey with
    | error e => rw [hra, bindErr] at h; cases h
    | ok ras =>
      rw [hra, bindOk] at h
      cases hdec : columnValues t ctx.decKey with
      | error e => rw [hdec, bindErr] at h; cases h
      | ok decs =>
        rw [hdec, bindOk] at h
        rw [columnValues_select m hra, bindOk, columnValues_select m hdec, bindOk]
        rw [← selectMask_zip ras decs m
          (by rw [columnValues_length hra, columnValues_length hdec])]
        exact emapM_select m h
  · rw [if_neg hn] at h ⊢
    exact columnValues_select m h

theorem evalLeaf_decomp {ctx : SearchCtx} {t : Table} {sub : String}
    {res : List Bool} (h : evalLeaf ctx t sub = .ok res) :
    ∃ cn op v0 cu value cvs,
      safelySplitConditionalString sub = .ok (cn, op, v0) ∧
      leafUnit t cn = .ok cu ∧ leafValue t cn cu v0 = .ok value ∧
      leafColumnValues ctx t cn = .ok cvs ∧
      emapM (evalCell t cn op value cu) cvs = .ok res := by
  unfold evalLeaf at h
  cases hs : safelySplitConditionalString sub with
  | error e => rw [hs, bindErr] at h; cases h
  | ok triple =>
    rw [hs, bindOk] at h
    obtain ⟨cn, op, v0⟩ := triple
    dsimp only at h
    cases hu : leafUnit t cn with
    | error e => rw [hu, bindErr] at h; cases h
    | ok cu =>
      rw [hu, bindOk] at h
      cases hv : leafValue t cn cu v0 with
      | error e => rw [hv, bindErr] at h; cases h
      | ok value =>
        rw [hv, bindOk] at h
        cases hc : leafColumnValues ctx t cn with
        | error e => rw [hc, bindErr] at h; cases h
        | ok cvs =>
          rw [hc, bindOk] at h
          exact ⟨cn, op, v0, cu, value, cvs, rfl, hu, hv, hc, h⟩

theorem evalLeaf_of_parts {ctx : SearchCtx} {t : Table} {sub : String}
    {res : List Bool} {cn op v0 : String} {cu : Option UnitName}
    {value : Operand} {cvs : List Value}
    (hs : safelySplitConditionalString sub = .ok (cn, op, v0))
    (hu : leafUnit t cn = .ok cu) (hv : leafValue t cn cu v0 = .ok value)
    (hc : leafColumnValues ctx t cn = .ok cvs)
    (hm : emapM (evalCell t cn op value cu) cvs = .ok res) :
    evalLeaf ctx t sub = .ok res := by
  unfold evalLeaf
  rw [hs, bindOk]
  dsimp only
  rw [hu, bindOk, hv, bindOk, hc, bindOk]
  exact hm

theorem evalLeaf_length {ctx : SearchCtx} {t : Table} {sub : String}
    {res : List Bool} (h : evalLeaf ctx t sub = .ok res) :
    res.length = t.rows.length := by
  obtain ⟨cn, op, v0, cu, value, cvs, _, _, _, hc, hm⟩ := evalLeaf_decomp h
  rw [emapM_length hm, leafColumnValues_length hc]

theorem evalLeaf_select {ctx : SearchCtx} {t : Table} {sub : String}
    {res : List Bool} (m : List Bool) (h : evalLeaf ctx t sub = .ok res) :
    evalLeaf ctx (filterTable t m) sub = .ok (selectMask res m) := by
  obtain ⟨cn, op, v0, cu, value, cvs, hs, hu, hv, hc, hm⟩ := evalLeaf_decomp h
  refine @evalLeaf_of_parts ctx (filterTable t m) sub (selectMask res m) cn op v0
    cu value (selectMask cvs m) hs ?_ ?_ (leafColumnValues_select m hc) ?_
  · rw [leafUnit_filter]; exact hu
  · rw [leafValue_filter]; exact hv
  · have h2 : emapM (evalCell t cn op value cu) (selectMask cvs m) =
        .ok (selectMask res m) := emapM_select m hm
    calc emapM (evalCell (filterTable t m) cn op value cu) (selectMask cvs m)
        = emapM (evalCell t cn op value cu) (selectMask cvs m) := by
          exact emapM_congr (fun a _ => evalCell_filter t m cn op value cu a)
      _ = .ok (selectMask res m) := h2

theorem emapM_mem_exists {α β : Type} {f : α → Except Err β} :
    ∀ {l : List α} {bs : List β}, emapM f l = .ok bs →
      ∀ b ∈ bs, ∃ a ∈ l, f a = .ok b := by
  intro l
  induction l with
  | nil => intro bs h b hb; cases h; cases hb
  | cons x xs ih =>
    intro bs h b hb
    obtain ⟨b0, bs', hb0, hl, rfl⟩ := emapM_cons_ok h
    rcases List.mem_cons.mp hb with rfl | hb
    · exact ⟨x, List.mem_cons_self x xs, hb0⟩
    · obtain ⟨a, ha, hfa⟩ := ih hl b hb
      exact ⟨a, List.mem_cons_of_mem x ha, hfa⟩

theorem mem_zip_right {α β : Type} :
    ∀ {l1 : List α} {l2 : List β}, l1.length = l2.length →
      ∀ b ∈ l2, ∃ a, (a, b) ∈ l1.zip l2 := by
  intro l1
  induction l1 with
  | nil =>
    intro l2 h b hb
    cases l2 with
    | nil => cases hb
    | cons _ _ => cases h
  | cons x xs ih =>
    intro l2 h b hb
    cases l2 with
    | nil => cases hb
    | cons y ys =>
      simp only [List.length_cons, Nat.succ.injEq] at h
      rcases List.mem_cons.mp hb with rfl | hb
      · exact ⟨x, by simp [List.zip_cons_cons]⟩
      · obtain ⟨a, ha⟩ := ih h b hb
        exact ⟨a, by simp [List.zip_cons_cons, ha]⟩

theorem checkCondition_length {ctx : SearchCtx} :
    ∀ (fuel : Nat) (t : Table) (s : String) (m : List Bool),
      checkCondition ctx fuel t s = .ok m →
      m = [] ∨ m.length = t.rows.length := by
  intro fuel
  induction fuel with
  | zero => intro t s m h; cases h
  | succ fuel ih =>
    intro t s m h
    simp only [checkCondition] at h
    cases hsubs : getSubConditions s with
    | error e => rw [hsubs, bindErr] at h; cases h
    | ok subs =>
      rw [hsubs, bindOk] at h
      cases hlists : emapM (fun sub_condition => do
          let sub_sub_conditions ← getSubConditions sub_condition
          if sub_sub_conditions.length = 1 then evalLeaf ctx t sub_condition
          else checkCondition ctx fuel t sub_condition) subs with
      | error e => rw [hlists, bindErr] at h; cases h
      | ok lists =>
        rw [hlists, bindOk] at h
        cases lists with
        | nil =>
          simp only [finalPhase] at h
          cases h
          exact Or.inl rfl
        | cons first rest =>
          simp only [finalPhase] at h
          have hm := emapM_length h
          rw [List.length_range] at hm
          have hfirst : first = [] ∨ first.length = t.rows.length := by
            obtain ⟨sub, hsub, hbody⟩ :=
              emapM_mem_exists hlists first (List.mem_cons_self first rest)
            cases hss : getSubConditions sub with
            | error e => rw [hss, bindErr] at hbody; cases hbody
            | ok ss =>
              rw [hss, bindOk] at hbody
              by_cases hlen : ss.length = 1
              · rw [if_pos hlen] at hbody
                exact Or.inr (evalLeaf_length hbody)
              · rw [if_neg hlen] at hbody
                exact ih t sub first hbody
          rcases hfirst with rfl | hfl
          · left
            simpa using hm
          · right
            rw [hm, hfl]

theorem checkCondition_select {ctx : SearchCtx} :
    ∀ (fuel : Nat) (t : Table) (s : String) (m bs : List Bool),
      bs.length = t.rows.length →
      checkCondition ctx fuel t s = .ok m →
      checkCondition ctx fuel (filterTable t bs) s = .ok (selectMask m bs) := by
  intro fuel
  induction fuel with
  | zero => intro t s m bs _ h; cases h
  | succ fuel ih =>
    intro t s m bs hbs h
    simp only [checkCondition] at h ⊢
    cases hsubs : getSubConditions s with
    | error e => rw [hsubs, bindErr] at h; cases h
    | ok subs =>
      rw [hsubs, bindOk] at h
      rw [bindOk]
      cases hlists : emapM (fun sub_condition => do
          let sub_sub_conditions ← getSubConditions sub_condition
          if sub_sub_conditions.length = 1 then evalLeaf ctx t sub_condition
          else checkCondition ctx fuel t sub_condition) subs with
      | error e => rw [hlists, bindErr] at h; cases h
      | ok lists =>
        rw [hlists, bindOk] at h
        have hlists2 : emapM (fun sub_condition => do
            let sub_sub_conditions ← getSubConditions sub_condition
            if sub_sub_conditions.length = 1 then
              evalLeaf ctx (filterTable t bs) sub_condition
            else checkCondition ctx fuel (filterTable t bs) sub_condition) subs =
            .ok (lists.map (fun l => selectMask l bs)) := by
          refine emapM_map_ok ?_ hlists
          intro sub _ l hbody
          cases hss : getSubConditions sub with
          | error e => rw [hss, bindErr] at hbody; cases hbody
          | ok ss =>
            rw [hss, bindOk] at hbody
            rw [bindOk]
            by_cases hlen : ss.length = 1
            · rw [if_pos hlen] at hbody
              rw [if_pos hlen]
              exact evalLeaf_select bs hbody
            · rw [if_neg hlen] at hbody
              rw [if_neg hlen]
              exact ih t sub l bs hbs hbody
        rw [hlists2, bindOk]
        cases lists with
        | nil =>
          simp only [finalPhase] at h ⊢
          cases h
          rw [selectMask_nil_left]
          rfl
        | cons first rest =>
          simp only [finalPhase, List.map_cons] at h ⊢
          cases first with
          | nil =>
            simp only [List.length_nil, List.range_zero] at h
            cases h
            rw [selectMask_nil_left]
            rfl
          | cons f0 frest =>
            have hlsubs : (f0 :: frest) :: rest ≠ [] := by simp
            have hlenzip : subs.length = ((f0 :: frest) :: rest).length :=
              (emapM_length hlists).symm
            obtain ⟨r0, rs, h0, _, _⟩ := emapM_range_succ_ok
              (by simpa only [List.length_cons] using h)
            have hbm : ∃ m0, buildModified (subs.zip ((f0 :: frest) :: rest)) 0 s =
                .ok m0 := by
              simp only [substRow] at h0
              cases hb : buildModified (subs.zip ((f0 :: frest) :: rest)) 0 s with
              | error e => rw [hb, bindErr] at h0; cases h0
              | ok m0 => exact ⟨m0, rfl⟩
            obtain ⟨m0, hbm⟩ := hbm
            have hne : ∀ l ∈ (f0 :: frest) :: rest, l ≠ [] := by
              intro l hl
              obtain ⟨a, hazip⟩ := mem_zip_right hlenzip l hl
              have := buildModified_ok_lt hbm (a, l) hazip
              intro hcontra
              rw [hcontra] at this
              cases this
            have hlenall : ∀ l ∈ (f0 :: frest) :: rest, l.length = bs.length := by
              intro l hl
              obtain ⟨sub, _, hbody⟩ := emapM_mem_exists hlists l hl
              have hdisj : l = [] ∨ l.length = t.rows.length := by
                cases hss : getSubConditions sub with
                | error e => rw [hss, bindErr] at hbody; cases hbody
                | ok ss =>
                  rw [hss, bindOk] at hbody
                  by_cases hlen : ss.length = 1
                  · rw [if_pos hlen] at hbody
                    exact Or.inr (evalLeaf_length hbody)
                  · rw [if_neg hlen] at hbody
                    exact checkCondition_length fuel t sub l hbody
              rcases hdisj with rfl | hlr
              · exact absurd rfl (hne [] hl)
              · rw [hlr, hbs]
            have hcore := finalPhase_select_core bs s subs ((f0 :: frest) :: rest)
              m hlenall
              (by rw [← hlenall (f0 :: frest) (List.mem_cons_self _ _)]; exact h)
            rw [selectMask_length (hlenall (f0 :: frest) (List.mem_cons_self _ _))]
            simpa only [List.map_cons] using hcore

/-! ### The substitution / boolean-algebra phase in isolation (claim C4)

`checkCondition` folds per-row child booleans back by textually replacing
each first-layer child with `True`/`False` and evaluating the result.  The
definitions below expose that phase over one layer of children, at the
character-list level on which `pyReplace` operates. -/

/-- The characters of the `True`/`False` literal substituted for a child
(`str(boolean_value)` on line 907). -/
def litChars (b : Bool) : List Char :=
  if b then ['T', 'r', 'u', 'e'] else ['F', 'a', 'l', 's', 'e']

/-- `pyReplace` at the character-list level. -/
def replaceChars (pat rep l : List Char) : List Char :=
  match pat with
  | [] => l
  | ph :: pt => replaceGo ph pt rep (l.length + 1) l

/-- The sequence of replacements of line 907 for one row, given each child's
text and its boolean for that row. -/
def substAllChars : List (List Char × Bool) → List Char → List Char
  | [], s => s
  | (sub, b) :: rest, s => substAllChars rest (replaceChars sub (litChars b) s)

/-- The operator/child tail of a first-layer compound:
`o₁ c₁ o₂ c₂ …`. -/
def flatLayer : List (Char × List Char) → List Char
  | [] => []
  | (o, c) :: rest => o :: (c ++ flatLayer rest)

/-- The operator/literal tail after substitution: `o₁ b₁ o₂ b₂ …`. -/
def flatLits : List (Char × Bool) → List Char
  | [] => []
  | (o, b) :: rest => o :: (litChars b ++ flatLits rest)

/-- A fully parenthesized first-layer compound
`( c₀ o₁ c₁ o₂ c₂ … )` as a character list. -/
def mkLayerChars (c0 : List Char) (rest : List (Char × List Char)) : List Char :=
  '(' :: (c0 ++ (flatLayer rest ++ [')']))

/-- The value of a literal layer `b₀ o₁ b₁ …` under Python's semantics for
`&`/`|` on booleans (`&` binds tighter than `|`): `orAcc` holds the finished
`|`-operands, `andAcc` the running `&`-chain. -/
def layerDenoteAux (orAcc andAcc : Bool) : List (Char × Bool) → Bool
  | [] => orAcc || andAcc
  | (o, b) :: rest =>
    if o = '&' then layerDenoteAux orAcc (andAcc && b) rest
    else layerDenoteAux (orAcc || andAcc) b rest

/-- Standard AND/OR value of one layer of booleans. -/
def layerDenote (b0 : Bool) (obs : List (Char × Bool)) : Bool :=
  layerDenoteAux false b0 obs

/-- Number of occurrences of `pat` in `s` (as positions where `pat` is a
prefix of the remaining text). -/
def countOcc (pat s : List Char) : Nat :=
  ((List.range (s.length + 1)).filter (fun k => pat.isPrefixOf (s.drop k))).length

/-- The substitution sequence is non-overlapping: each child occurs exactly
once in the string at the moment it is substituted. -/
def stepUniq : List (List Char × Bool) → List Char → Bool
  | [], _ => true
  | (sub, b) :: rest, s =>
    (countOcc sub s == 1) && stepUniq rest (replaceChars sub (litChars b) s)

theorem replaceGo_no_occ (ph : Char) (pt r : List Char) :
    ∀ (s : List Char) (fuel : Nat), s.length + 1 ≤ fuel →
      (∀ k, (ph :: pt).isPrefixOf (s.drop k) = false) →
      replaceGo ph pt r fuel s = s := by
  intro s
  induction s with
  | nil => intro fuel _ _; cases fuel <;> rfl
  | cons c cs ih =>
    intro fuel hfuel hno
    cases fuel with
    | zero => rfl
    | succ f =>
      have h0 := hno 0
      rw [List.drop_zero] at h0
      simp only [replaceGo, h0, Bool.false_eq_true, if_false]
      congr 1
      refine ih f ?_ ?_
      · simp only [List.length_cons] at hfuel
        omega
      · intro k
        exact hno (k + 1)

theorem replaceGo_unique (ph : Char) (pt r : List Char) :
    ∀ (pre post : List Char) (fuel : Nat),
      (pre ++ ((ph :: pt) ++ post)).length + 1 ≤ fuel →
      (∀ k, (ph :: pt).isPrefixOf ((pre ++ ((ph :: pt) ++ post)).drop k) = true →
        k = pre.length) →
      replaceGo ph pt r fuel (pre ++ ((ph :: pt) ++ post)) = pre ++ (r ++ post) := by
  intro pre
  induction pre with
  | nil =>
    intro post fuel hfuel huniq
    simp only [List.nil_append] at hfuel huniq ⊢
    cases fuel with
    | zero => simp at hfuel
    | succ f =>
      simp only [List.cons_append, replaceGo, List.append_eq]
      rw [if_pos ?hpre]
      case hpre =>
        exact List.isPrefixOf_iff_prefix.mpr
          (by simpa using List.prefix_append (ph :: pt) post)
      have hdrop : (pt ++ post).drop pt.length = post := List.drop_left pt post
      rw [hdrop]
      congr 1
      refine replaceGo_no_occ ph pt r post f ?_ ?_
      · simp only [List.cons_append, List.length_cons, List.length_append] at hfuel
        omega
      · intro k
        cases hocc : (ph :: pt).isPrefixOf (post.drop k) with
        | false => rfl
        | true =>
          exfalso
          have := huniq ((ph :: pt).length + k) ?_
          · simp [List.length_cons] at this
          · rw [List.drop_append]
            exact hocc
  | cons c pre' ih =>
    intro post fuel hfuel huniq
    cases fuel with
    | zero => simp [List.length_append] at hfuel
    | succ f =>
      simp only [List.cons_append, replaceGo, List.append_eq]
      have hnot : (ph :: pt).isPrefixOf
          (c :: (pre' ++ (ph :: (pt ++ post)))) = false := by
        cases hocc : (ph :: pt).isPrefixOf (c :: (pre' ++ (ph :: (pt ++ post)))) with
        | false => rfl
        | true =>
          exfalso
          have := huniq 0 (by simpa using hocc)
          simp at this
      rw [hnot]
      simp only [Bool.false_eq_true, if_false]
      congr 1
      refine ih post f ?_ ?_
      · simp only [List.length_append, List.length_cons] at hfuel ⊢
        omega
      · intro k hk
        have := huniq (k + 1) (by simpa using hk)
        simpa using this

theorem occ_le_length {pat s : List Char} {k : Nat} (hpat : pat ≠ [])
    (h : pat.isPrefixOf (s.drop k) = true) : k ≤ s.length := by
  by_contra hgt
  have hdrop : s.drop k = [] := List.drop_eq_nil_of_le (by omega)
  rw [hdrop] at h
  cases pat with
  | nil => exact hpat rfl
  | cons p ps => cases h

theorem countOcc_unique {pat s : List Char} (hpat : pat ≠ []) {k0 : Nat}
    (hk0 : pat.isPrefixOf (s.drop k0) = true) (h1 : countOcc pat s = 1) :
    ∀ k, pat.isPrefixOf (s.drop k) = true → k = k0 := by
  intro k hk
  obtain ⟨a, ha⟩ := List.length_eq_one.mp h1
  have hmem : ∀ j, pat.isPrefixOf (s.drop j) = true → j = a := by
    intro j hj
    have hj_mem : j ∈ (List.range (s.length + 1)).filter
        (fun k => pat.isPrefixOf (s.drop k)) := by
      refine List.mem_filter.mpr ⟨List.mem_range.mpr ?_, by simpa using hj⟩
      have := occ_le_length hpat hj
      omega
    rw [ha] at hj_mem
    simpa using hj_mem
  rw [hmem k hk, hmem k0 hk0]

theorem replaceChars_unique {pat r s pre post : List Char} (hpat : pat ≠ [])
    (hs : s = pre ++ (pat ++ post)) (hcount : countOcc pat s = 1) :
    replaceChars pat r s = pre ++ (r ++ post) := by
  subst hs
  cases pat with
  | nil => exact absurd rfl hpat
  | cons ph pt =>
    have hocc : (ph :: pt).isPrefixOf
        ((pre ++ ((ph :: pt) ++ post)).drop pre.length) = true := by
      rw [List.drop_left]
      exact List.isPrefixOf_iff_prefix.mpr (List.prefix_append (ph :: pt) post)
    have huniq := countOcc_unique (by simp) hocc hcount
    exact replaceGo_unique ph pt r pre post _ (le_refl _) huniq

theorem substLayer :
    ∀ (rest : List (Char × List Char)) (bs : List Bool) (pre c0 : List Char)
      (b0 : Bool),
      rest.length = bs.length →
      c0 ≠ [] →
      stepUniq ((c0, b0) :: (rest.map Prod.snd).zip bs)
        ('(' :: (pre ++ (c0 ++ (flatLayer rest ++ [')'])))) = true →
      substAllChars ((c0, b0) :: (rest.map Prod.snd).zip bs)
        ('(' :: (pre ++ (c0 ++ (flatLayer rest ++ [')'])))) =
      '(' :: (pre ++ (litChars b0 ++ (flatLits ((rest.map Prod.fst).zip bs) ++ [')']))) := by
  intro rest
  induction rest with
  | nil =>
    intro bs pre c0 b0 hlen hc0 huniq
    cases bs with
    | cons _ _ => cases hlen
    | nil =>
      have hcount : countOcc c0 ('(' :: (pre ++ (c0 ++ (flatLayer [] ++ [')'])))) = 1 := by
        have h2 := huniq
        simp only [List.map_nil, stepUniq, Bool.and_eq_true, beq_iff_eq] at h2
        exact h2.1
      show substAllChars [] (replaceChars c0 (litChars b0)
        ('(' :: (pre ++ (c0 ++ (flatLayer [] ++ [')']))))) = _
      simp only [substAllChars]
      refine (@replaceChars_unique c0 (litChars b0) _ ('(' :: pre) [')']
        hc0 ?_ hcount).trans ?_
      · simp [flatLayer, List.cons_append, List.append_assoc]
      · simp [flatLits, flatLayer, List.cons_append, List.append_assoc]
  | cons oc rest ih =>
    intro bs pre c0 b0 hlen hc0 huniq
    obtain ⟨o1, c1⟩ := oc
    cases bs with
    | nil => cases hlen
    | cons b1 bs =>
      simp only [List.length_cons, Nat.succ.injEq] at hlen
      have huniq2 := huniq
      simp only [List.map_cons, List.zip_cons_cons, stepUniq, Bool.and_eq_true,
        beq_iff_eq] at huniq2
      have hcount := huniq2.1
      have hfirst : replaceChars c0 (litChars b0)
          ('(' :: (pre ++ (c0 ++ (flatLayer ((o1, c1) :: rest) ++ [')'])))) =
          '(' :: ((pre ++ litChars b0 ++ [o1]) ++ (c1 ++ (flatLayer rest ++ [')']))) := by
        refine (@replaceChars_unique c0 (litChars b0) _ ('(' :: pre)
          (o1 :: (c1 ++ (flatLayer rest ++ [')']))) hc0 ?_ hcount).trans ?_
        · simp [flatLayer, List.cons_append, List.append_assoc]
        · simp [List.cons_append, List.append_assoc]
      have hrest2 : stepUniq ((c1, b1) :: (rest.map Prod.snd).zip bs)
          ('(' :: ((pre ++ litChars b0 ++ [o1]) ++ (c1 ++ (flatLayer rest ++ [')'])))) =
          true := by
        rw [← hfirst]
        simp only [stepUniq, Bool.and_eq_true, beq_iff_eq]
        exact huniq2.2
      have hc1 : c1 ≠ [] := by
        intro hcontra
        rw [hcontra] at hrest2
        simp only [stepUniq, Bool.and_eq_true, beq_iff_eq] at hrest2
        have h1 := hrest2.1
        simp only [countOcc, List.isPrefixOf, List.filter_true,
          List.length_range, List.length_cons] at h1
        omega
      have hIH := ih bs (pre ++ litChars b0 ++ [o1]) c1 b1 hlen hc1 hrest2
      show substAllChars ((c1, b1) :: (rest.map Prod.snd).zip bs)
        (replaceChars c0 (litChars b0)
          ('(' :: (pre ++ (c0 ++ (flatLayer ((o1, c1) :: rest) ++ [')']))))) = _
      rw [hfirst]
      refine hIH.trans ?_
      simp [flatLits, List.cons_append, List.append_assoc]
      rfl

/-- Token form of the substituted operator/literal tail. -/
def flatToks : List (Char × Bool) → List Tok
  | [] => []
  | (o, b) :: rest =>
    (if o = '&' then Tok.amp else Tok.bar) :: Tok.lit b :: flatToks rest

theorem tokenize_lit (b : Bool) {l : List Char} {ts : List Tok}
    (h : tokenize l = .ok ts) :
    tokenize (litChars b ++ l) = .ok (.lit b :: ts) := by
  cases b
  · show (tokenize l >>= fun r => pure (Tok.lit false :: r)) = .ok (Tok.lit false :: ts)
    rw [h, bindOk]
    rfl
  · show (tokenize l >>= fun r => pure (Tok.lit true :: r)) = .ok (Tok.lit true :: ts)
    rw [h, bindOk]
    rfl

theorem tokenize_flat :
    ∀ (obs : List (Char × Bool)), (∀ ob ∈ obs, ob.1 = '&' ∨ ob.1 = '|') →
      tokenize (flatLits obs ++ [')']) = .ok (flatToks obs ++ [.rparen]) := by
  intro obs
  induction obs with
  | nil => intro _; rfl
  | cons ob rest ih =>
    intro hops
    obtain ⟨o, b⟩ := ob
    have hoo := hops (o, b) (List.mem_cons_self _ _)
    have hrest := ih (fun p hp => hops p (List.mem_cons_of_mem _ hp))
    have hlit := tokenize_lit b hrest
    simp only at hoo
    rcases hoo with rfl | rfl
    · show (tokenize ((litChars b ++ flatLits rest) ++ [')']) >>=
        fun r => pure (Tok.amp :: r)) = _
      rw [List.append_assoc, hlit, bindOk]
      rfl
    · show (tokenize ((litChars b ++ flatLits rest) ++ [')']) >>=
        fun r => pure (Tok.bar :: r)) = _
      rw [List.append_assoc, hlit, bindOk]
      rfl

theorem runToks_layer :
    ∀ (obs : List (Char × Bool)) (o a : Bool),
      (∀ ob ∈ obs, ob.1 = '&' ∨ ob.1 = '|') →
      runToks (flatToks obs ++ [.rparen]) [⟨false, true⟩] ⟨o, a⟩ false =
        .ok (layerDenoteAux o a obs) := by
  intro obs
  induction obs with
  | nil =>
    intro o a _
    show Except.ok (false || (true && (o || a))) = Except.ok (layerDenoteAux o a [])
    simp [layerDenoteAux]
  | cons ob rest ih =>
    intro o a hops
    obtain ⟨oc, b⟩ := ob
    have hoo := hops (oc, b) (List.mem_cons_self _ _)
    have hrest := fun p hp => hops p (List.mem_cons_of_mem _ hp)
    simp only at hoo
    rcases hoo with rfl | rfl
    · show runToks (flatToks rest ++ [.rparen]) [⟨false, true⟩] ⟨o, a && b⟩ false =
        .ok (layerDenoteAux o a (('&', b) :: rest))
      rw [ih o (a && b) hrest]
      rfl
    · show runToks (flatToks rest ++ [.rparen]) [⟨false, true⟩] ⟨o || a, true && b⟩ false =
        .ok (layerDenoteAux o a (('|', b) :: rest))
      rw [ih (o || a) (true && b) hrest]
      rfl

theorem hasEq_append (l1 l2 : List Char) :
    hasEq (l1 ++ l2) = (hasEq l1 || hasEq l2) := by
  induction l1 with
  | nil => rfl
  | cons c r ih => simp [hasEq, ih, Bool.or_assoc]

theorem litChars_hasEq (b : Bool) : hasEq (litChars b) = false := by
  cases b <;> rfl

theorem flatLits_hasEq :
    ∀ (obs : List (Char × Bool)), (∀ ob ∈ obs, ob.1 = '&' ∨ ob.1 = '|') →
      hasEq (flatLits obs) = false := by
  intro obs
  induction obs with
  | nil => intro _; rfl
  | cons ob rest ih =>
    intro hops
    obtain ⟨o, b⟩ := ob
    have hoo := hops (o, b) (List.mem_cons_self _ _)
    have hrest := ih (fun p hp => hops p (List.mem_cons_of_mem _ hp))
    simp only at hoo
    show ((o == '=') || hasEq (litChars b ++ flatLits rest)) = false
    rw [hasEq_append, litChars_hasEq, hrest]
    rcases hoo with rfl | rfl <;> rfl

theorem pyEval_layer (b0 : Bool) (obs : List (Char × Bool))
    (hops : ∀ ob ∈ obs, ob.1 = '&' ∨ ob.1 = '|') :
    pyEval (ofChars ('(' :: (litChars b0 ++ (flatLits obs ++ [')'])))) =
      .ok (layerDenote b0 obs) := by
  have hne : hasEq ('(' :: (litChars b0 ++ (flatLits obs ++ [')']))) = false := by
    show (('(' == '=') || hasEq (litChars b0 ++ (flatLits obs ++ [')']))) = false
    rw [hasEq_append, litChars_hasEq, hasEq_append, flatLits_hasEq obs hops]
    rfl
  have htok : tokenize ('(' :: (litChars b0 ++ (flatLits obs ++ [')']))) =
      .ok (.lparen :: .lit b0 :: (flatToks obs ++ [.rparen])) := by
    have h1 := tokenize_lit b0 (tokenize_flat obs hops)
    show (tokenize (litChars b0 ++ (flatLits obs ++ [')'])) >>=
      fun r => pure (Tok.lparen :: r)) = _
    rw [h1, bindOk]
    rfl
  show cond (hasEq ('(' :: (litChars b0 ++ (flatLits obs ++ [')']))))
      (Except.error Err.syntaxError)
      (tokenize ('(' :: (litChars b0 ++ (flatLits obs ++ [')']))) >>=
        fun ts => runToks ts [] ⟨false, true⟩ true) = .ok (layerDenote b0 obs)
  rw [hne]
  show (tokenize ('(' :: (litChars b0 ++ (flatLits obs ++ [')']))) >>=
    fun ts => runToks ts [] ⟨false, true⟩ true) = .ok (layerDenote b0 obs)
  rw [htok, bindOk]
  show runToks (flatToks obs ++ [.rparen]) [⟨false, true⟩] ⟨false, true && b0⟩ false =
    .ok (layerDenote b0 obs)
  rw [runToks_layer obs false (true && b0) hops]
  rfl

/-! ### Concrete fixtures used by the claim theorems -/

/-- A search context whose separation function is irrelevant to the claims
(no claim evaluates `ANGULAR_SEPARATION`). -/
def sampleCtx : SearchCtx := ⟨fun _ _ => 0, "RA_d", "DEC_d"⟩

/-- A unitless numeric column `x` with rows `x = 1` and `x = 4`. -/
def tableX : Table := ⟨[⟨"x", none, .dnum⟩], [[.num 1], [.num 4]]⟩

/-- A unitless string column `f` with the multi-valued cells `"A|B"` and
`"B|C"`. -/
def tableMV : Table := ⟨[⟨"f", none, .dstr⟩], [[.str "A|B"], [.str "B|C"]]⟩

/-- Two unitless numeric columns with the single row `a = 1`, `b = 2`. -/
def tableAB : Table :=
  ⟨[⟨"a", none, .dnum⟩, ⟨"b", none, .dnum⟩], [[.num 1, .num 2]]⟩

/-- A unitless numeric column `x` with no rows. -/
def tableEmpty : Table := ⟨[⟨"x", none, .dnum⟩], []⟩

/-- The surviving row of `tableX` under the filter `x = 1`. -/
def tableX1 : Table := ⟨[⟨"x", none, .dnum⟩], [[.num 1]]⟩

/-! ### Claim theorems -/

theorem vmin_num (a b : ℚ) : vmin (.num a) (.num b) = .ok (.num (min a b)) := by
  simp only [vmin, vlt, Bind.bind, Except.bind, decide_eq_true_eq]
  rcases le_or_lt a b with h | h
  · rw [min_eq_left h, if_neg (not_lt.mpr h)]; rfl
  · rw [min_eq_right h.le, if_pos h]; rfl

theorem vmax_num (a b : ℚ) : vmax (.num a) (.num b) = .ok (.num (max a b)) := by
  simp only [vmax, vlt, Bind.bind, Except.bind, decide_eq_true_eq]
  rcases le_or_lt b a with h | h
  · rw [max_eq_left h, if_neg (not_lt.mpr h)]; rfl
  · rw [max_eq_right h.le, if_pos h]; rfl

theorem vge_num (v w : ℚ) : vge (.num v) (.num w) = .ok (decide (w ≤ v)) := rfl

theorem vle_num (v w : ℚ) : vle (.num v) (.num w) = .ok (decide (v ≤ w)) := rfl

theorem applyOperator_between (v a b : ℚ) :
    applyOperator "between" (.num v) (.list [.num a, .num b]) =
      .ok (decide (min a b ≤ v ∧ v ≤ max a b)) := by
  simp +decide only [applyOperator, if_false, if_true]
  rw [vmin_num, vmax_num]
  simp only [Bind.bind, Except.bind, vge_num, vle_num]
  by_cases hmin : min a b ≤ v
  · simp [hmin, pure, Except.pure]
  · simp [hmin, pure, Except.pure]

theorem applyOperator_notBetween (v a b : ℚ) :
    applyOperator "!between" (.num v) (.list [.num a, .num b]) =
      .ok (!decide (a ≤ v ∧ v ≤ b)) := by
  simp +decide only [applyOperator, if_false, if_true]
  simp only [Bind.bind, Except.bind, vge_num, vle_num]
  by_cases ha : a ≤ v
  · simp [ha, pure, Except.pure]
  · simp [ha, pure, Except.pure]

/-- C2: the operator evaluator treats `between` order-insensitively
(`min(range) <= v <= max(range)`) and `!between` order-sensitively
(`NOT (range[0] <= v <= range[1])` with the endpoints taken literally); in
particular `between [5, 1]` matches `1 <= v <= 5` and `!between [1, 5]` at
`v = 1` yields `false`. -/
theorem claim_C2 : ∀ v a b : ℚ,
    applyOperator "between" (.num v) (.list [.num a, .num b]) =
      .ok (decide (min a b ≤ v ∧ v ≤ max a b))
    ∧ applyOperator "!between" (.num v) (.list [.num a, .num b]) =
      .ok (!decide (a ≤ v ∧ v ≤ b))
    ∧ applyOperator "between" (.num v) (.list [.num 5, .num 1]) =
      .ok (decide (1 ≤ v ∧ v ≤ 5))
    ∧ applyOperator "!between" (.num 1) (.list [.num 1, .num 5]) = .ok false := by
  intro v a b
  refine ⟨applyOperator_between v a b, applyOperator_notBetween v a b, ?_, ?_⟩
  · rw [applyOperator_between v 5 1]
    norm_num
  · rw [applyOperator_notBetween 1 1 5]
    norm_num

/-- C3 counterexample: on the spec's own example string (which carries no
extra enclosing parenthesis pair) `getAllSubConditions`'s initial strip
removes the first leaf's opening parenthesis and the final closing
parenthesis, so the leaf `x > 1` is lost and the required fields are only
`{y, z}`, not `{x, y, z}`. -/
theorem claim_C3_counterexample :
    getRequiredVotableFields ["(x > 1)&((y < 5)|(z = 2))"] = .ok ["y", "z"]
    ∧ "x" ∉ ["y", "z"] := by
  constructor
  · rfl
  · decide

/-- C3 (amended): with the enclosing parenthesis pair the engine's builders
always produce, `requiredFields` does return exactly `{x, y, z}`; on the
unwrapped string of the claim the first leaf is dropped (see the
counterexample). -/
theorem claim_C3 :
    getRequiredVotableFields ["((x > 1)&((y < 5)|(z = 2)))"] = .ok ["x", "y", "z"] := by
  rfl

/-- C5: the expression built by `buildLeaf("x", "=", [1,2,3])` is the
OR-join of one leaf per value inside one enclosing parenthesis pair, and
evaluating it against a table with rows `x = 1` and `x = 4` keeps exactly
the row `x = 1`. -/
theorem claim_C5 :
    buildConditionalArgument "x" "=" [.int 1, .int 2, .int 3] =
      "((x = 1)|(x = 2)|(x = 3))"
    ∧ applyQueryCriteria sampleCtx 8 (some tableX)
        (some [buildConditionalArgument "x" "=" [.int 1, .int 2, .int 3]]) =
      .ok (some ⟨[⟨"x", none, .dnum⟩], [[.num 1]]⟩) := by
  constructor
  · rfl
  · rfl

/-- C6 counterexample: the empty expression `"()"` does not behave as "no
condition": the leaf splitter strips the parentheses and then indexes the
empty string, raising `IndexError`, which aborts the evaluation. -/
theorem claim_C6_counterexample :
    applyQueryCriteria sampleCtx 8 (some tableX) (some ["()"]) =
      .error .indexError := by
  rfl

/-- C6 (amended): the identity law holds for an empty condition *sequence*
(or `None`), not for the string `"()"`: with zero conditions
`applyQueryCriteria` returns the table unchanged and raises no error, while
the string `"()"` raises an index error (see the counterexample). -/
theorem claim_C6 : ∀ (ctx : SearchCtx) (fuel : Nat) (t : Table),
    applyQueryCriteria ctx fuel (some t) (some []) = .ok (some t)
    ∧ applyQueryCriteria ctx fuel (some t) none = .ok (some t) := by
  intro ctx fuel t
  constructor <;>
    · simp only [applyQueryCriteria, applyCriteriaLoop]
      split <;> rfl

/-- C8 counterexample: a leaf that tokenizes into exactly two tokens is not
rejected: the rejoin branch rebuilds the third component as the empty join
`" ".join([])`, so `"(a b)"` yields the predicate triple `("a", "b", "")`
instead of a malformed-leaf error. -/
theorem claim_C8_counterexample :
    safelySplitConditionalString "(a b)" = .ok ("a", "b", "")
    ∧ (pySplit "a b" ' ').length = 2 := by
  constructor
  · rfl
  · rfl

/-- C8 (amended): the leaf tokenizer fails (with an index error) only when
fewer than two whitespace tokens are produced; with exactly two tokens it
returns a predicate whose value component is the empty string (see the
counterexample), and a bare one-token string such as `"x"` does fail. -/
theorem claim_C8 : ∀ (l : List Char) (a b : String),
    ((splitCh ' ' l).map ofChars = [a] → splitFinish l = .error .indexError)
    ∧ ((splitCh ' ' l).map ofChars = [a, b] → splitFinish l = .ok (a, b, ""))
    ∧ safelySplitConditionalString "x" = .error .indexError := by
  intro l a b
  refine ⟨?_, ?_, by rfl⟩
  · intro h
    simp only [splitFinish, h]
  · intro h
    simp only [splitFinish, h]
    rfl

/-- C8 witness: the amended theorem applied to the two-token character list
of `"a b"`. -/
theorem claim_C8_witness : splitFinish ("a b".toList) = .ok ("a", "b", "") :=
  (claim_C8 ("a b".toList) "a" "b").2.1 (by rfl)

/-- C10: on a unitless column with a non-string (numeric) cell the
multi-value delimiter test raises a `TypeError` that the per-cell loop
catches, after which the cell is coerced to the column's native type and
evaluated once as a single scalar; on a numeric column the result is exactly
`applyOperator` on the raw cell. -/
theorem claim_C10 : ∀ (t : Table) (column_name operator : String)
    (value : Operand) (q : ℚ),
    cellTry t column_name operator value none (.num q) = .error .typeError
    ∧ evalCell t column_name operator value none (.num q) =
        cellFallback t column_name operator value none (.num q)
    ∧ evalCell tableX "x" operator value none (.num q) =
        applyOperator operator (.num q) value := by
  intro t column_name operator value q
  refine ⟨rfl, rfl, ?_⟩
  simp only [evalCell, cellTry, cellFallback, coerceCell, lookupColumn, tableX]
  rfl

/-- C1: a multi-valued string cell is split on `|`, the operator is applied
to each coerced alternative independently, and the per-alternative booleans
are ANDed when the operator name contains `!` and ORed otherwise; in
particular `"A|B"` satisfies `f = A` but not `f != A`, and `"B|C"` satisfies
`f != A`. -/
theorem claim_C1 : (∀ (t : Table) (column_name operator : String)
    (value : Operand) (column_unit : Option UnitName) (s : String)
    (bs : List Bool),
    s.toList.contains '|' = true →
    emapM (fun sub => do
        let sv ← coerceCell t column_name column_unit (.str sub)
        applyOperator operator sv value) (pySplit s '|') = .ok bs →
    evalCell t column_name operator value column_unit (.str s) =
      .ok (if operator.toList.contains '!' then bs.all id else bs.any id))
    ∧ checkCondition sampleCtx 8 tableMV "((f = A))" = .ok [true, false]
    ∧ checkCondition sampleCtx 8 tableMV "((f != A))" = .ok [false, true] := by
  refine ⟨?_, by rfl, by rfl⟩
  intro t column_name operator value column_unit s bs hdelim hmap
  simp only [Bind.bind, Except.bind] at hmap
  cases hneg : operator.toList.contains '!' <;>
    simp only [evalCell, cellTry, hdelim, if_true, Bind.bind, Except.bind, hmap,
      hneg, Bool.false_eq_true, if_false]

/-- C1 witness: the universal part of the claim applied to the cell `"A|B"`
under `f = A`. -/
theorem claim_C1_witness :
    evalCell tableMV "f" "=" (.single (.str "A")) none (.str "A|B") = .ok true :=
  claim_C1.1 tableMV "f" "=" (.single (.str "A")) none "A|B" [true, false]
    (by rfl) (by rfl)

/-- C9 counterexample: a compound expression without the builders' enclosing
parenthesis pair decomposes into zero sub-conditions (the naive strip
unbalances it), and the Row Evaluator returns an *empty* mask for a
one-row table without raising any error — `len(mask) != len(table)`. -/
theorem claim_C9_counterexample :
    checkCondition sampleCtx 8 tableAB "(a = 1)&(b = 2)" = .ok []
    ∧ tableAB.rows.length = 1 := ⟨rfl, rfl⟩

/-- C9 (amended): whenever the Row Evaluator returns a mask it has exactly
one boolean per row *or* is empty (the empty mask arises when the expression
decomposes into zero sub-conditions, e.g. a compound missing the enclosing
parenthesis pair — see the counterexample); and an empty table is returned
unchanged by the evaluate entry point without evaluating any condition. -/
theorem claim_C9 : ∀ (ctx : SearchCtx) (fuel : Nat) (t : Table) (e : String)
    (m : List Bool) (conds : Option (List String)),
    (checkCondition ctx fuel t e = .ok m → m.length = t.rows.length ∨ m = [])
    ∧ (t.rows = [] → applyQueryCriteria ctx fuel (some t) conds = .ok (some t)) := by
  intro ctx fuel t e m conds
  constructor
  · intro h
    exact (checkCondition_length fuel t e m h).symm
  · intro hrows
    simp [applyQueryCriteria, hrows]

/-- C9 witness: the amended theorem applied to a leaf on the two-row table
and to an empty table with an arbitrary (even malformed) condition. -/
theorem claim_C9_witness :
    (([true, false] : List Bool).length = tableX.rows.length
      ∨ ([true, false] : List Bool) = [])
    ∧ applyQueryCriteria sampleCtx 3 (some tableEmpty) (some ["(junk"]) =
        .ok (some tableEmpty) :=
  ⟨(claim_C9 sampleCtx 8 tableX "((x = 1))" [true, false] none).1 (by rfl),
   (claim_C9 sampleCtx 3 tableEmpty "x" [] (some ["(junk"])).2 (by rfl)⟩

/-- C7: evaluating an expression on the table already filtered by that same
expression filters nothing further — `evaluate(evaluate(T,E),E) =
evaluate(T,E)` whenever the first evaluation succeeds. -/
theorem claim_C7 : ∀ (ctx : SearchCtx) (fuel : Nat) (t : Table) (e : String)
    (r : Option Table),
    applyQueryCriteria ctx fuel (some t) (some [e]) = .ok r →
    applyQueryCriteria ctx fuel r (some [e]) = .ok r := by
  intro ctx fuel t e r h
  simp only [applyQueryCriteria] at h
  by_cases hz : t.rows.length = 0
  · rw [if_pos hz] at h
    cases h
    simp only [applyQueryCriteria]
    rw [if_pos hz]
  · rw [if_neg hz] at h
    simp only [applyCriteriaLoop] at h
    rw [if_neg hz] at h
    cases hm : checkCondition ctx fuel t e with
    | error e2 => rw [hm, bindErr, bindErr] at h; cases h
    | ok mask =>
      rw [hm, bindOk] at h
      simp only [applyCriteriaLoop, bindOk] at h
      cases h
      simp only [applyQueryCriteria]
      by_cases hz2 : (filterTable t mask).rows.length = 0
      · rw [if_pos hz2]
      · rw [if_neg hz2]
        have hmask : mask.length = t.rows.length := by
          rcases checkCondition_length fuel t e mask hm with hnil | hlen
          · exfalso
            apply hz2
            rw [hnil]
            simp [filterTable, selectMask_nil_right]
          · exact hlen
        have hsel := checkCondition_select fuel t e mask mask hmask hm
        simp only [applyCriteriaLoop]
        rw [if_neg hz2, hsel, bindOk]
        simp only [applyCriteriaLoop, bindOk]
        have hidem : filterTable (filterTable t mask) (selectMask mask mask) =
            filterTable t mask := by
          simp only [filterTable, selectMask_idem]
        rw [hidem]

/-- C7 witness: idempotence at the concrete filter `x = 1` over the two-row
table. -/
theorem claim_C7_witness :
    applyQueryCriteria sampleCtx 8 (some tableX1) (some ["((x = 1))"]) =
      .ok (some tableX1) :=
  claim_C7 sampleCtx 8 tableX "((x = 1))" (some tableX1) (by rfl)

/-- C4 counterexample: the substitution of line 907 uses `str.replace`, which
replaces EVERY occurrence of a child's text, not its first-layer occurrence.
When the first-layer child `(a = 1)` also occurs inside the second child
`((a = 1)|(b = 2))`, replacing it corrupts the second child's text, the
second replacement no longer finds its pattern, and `eval` receives
`"(True&(True|(b = 2)))"`: the leftover `=` is an assignment in expression
context, a compile-time `SyntaxError` — while the boolean algebra value of
the compound on the row `a = 1, b = 2` is plainly
`True & (True | True) = True`. -/
theorem claim_C4_counterexample :
    checkCondition sampleCtx 8 tableAB "((a = 1)&((a = 1)|(b = 2)))" =
      .error .syntaxError
    ∧ layerDenote true [('&', true)] = true := ⟨rfl, rfl⟩

/-- C4 (amended): textual substitution followed by `eval` agrees with the
standard AND/OR boolean algebra of the layer PROVIDED each first-layer
child's text occurs exactly once in the string at the moment it is
substituted (`stepUniq`).  For a fully parenthesized first-layer compound
`( c₀ o₁ c₁ … )` whose operators are `&`/`|`, replacing each child `cᵢ`
by the row literal `True`/`False` and evaluating the result with Python's
`eval` semantics (`&` binding tighter than `|`) returns exactly the layer's
boolean value `b₀ o₁ b₁ …`.  Without the uniqueness proviso the property
fails (see the counterexample). -/
theorem claim_C4 :
    ∀ (c0 : List Char) (rest : List (Char × List Char)) (b0 : Bool)
      (bs : List Bool),
      rest.length = bs.length →
      c0 ≠ [] →
      (∀ p ∈ rest, p.1 = '&' ∨ p.1 = '|') →
      stepUniq ((c0, b0) :: (rest.map Prod.snd).zip bs)
        (mkLayerChars c0 rest) = true →
      pyEval (ofChars (substAllChars ((c0, b0) :: (rest.map Prod.snd).zip bs)
        (mkLayerChars c0 rest))) =
        .ok (layerDenote b0 ((rest.map Prod.fst).zip bs)) := by
  intro c0 rest b0 bs hlen hc0 hops huniq
  have hops2 : ∀ ob ∈ (rest.map Prod.fst).zip bs, ob.1 = '&' ∨ ob.1 = '|' := by
    intro ob hob
    have h1 : ob.1 ∈ rest.map Prod.fst := (List.of_mem_zip hob).1
    obtain ⟨p, hp, hpe⟩ := List.mem_map.mp h1
    rw [← hpe]
    exact hops p hp
  have hsub := substLayer rest bs [] c0 b0 hlen hc0 huniq
  show pyEval (ofChars (substAllChars ((c0, b0) :: (rest.map Prod.snd).zip bs)
    ('(' :: ([] ++ (c0 ++ (flatLayer rest ++ [')'])))))) = _
  rw [hsub]
  exact pyEval_layer b0 ((rest.map Prod.fst).zip bs) hops2

/-- C4 witness: the compound `((x = 1)&(y = 2))` on a row where the first
child is true and the second false; each child occurs uniquely, and the
substituted string evaluates to `True & False = False`. -/
theorem claim_C4_witness :
    pyEval (ofChars (substAllChars
      [(['(', 'x', ' ', '=', ' ', '1', ')'], true),
       (['(', 'y', ' ', '=', ' ', '2', ')'], false)]
      (mkLayerChars ['(', 'x', ' ', '=', ' ', '1', ')']
        [('&', ['(', 'y', ' ', '=', ' ', '2', ')'])]))) =
      .ok (layerDenote true [('&', false)]) :=
  claim_C4 ['(', 'x', ' ', '=', ' ', '1', ')']
    [('&', ['(', 'y', ' ', '=', ' ', '2', ')'])] true [false]
    rfl (by decide) (by decide) (by decide)

end DataToolkit
